import Mathlib

/-!
# Verification of the jenkins-job-insight analysis core

This file gives a shallow embedding, in Lean 4, of the core of the
`jenkins-job-insight` repository (the bounded-concurrency executor, the
recursive build walker, the AI-response parser, the console-line extractor,
the Jira cross-reference pass, and the Pydantic data-model invariants), and
proves or refutes the frozen specification claims C1–C10 about it.

Conventions of the embedding:
* Python `str` is Lean `String`, Python `int` is Lean `Int` (build numbers
  are never overflowed or truncated by the code), Python lists are Lean
  `List`s.
* Fallible Python code (code that can raise) is embedded as `Except` /
  `Option`-returning functions; external collaborators (the Jenkins client,
  the AI CLI, the Jira client) are passed in as explicit oracle functions,
  mirroring the injected-client style of the source.
* The `asyncio` scheduling of `run_parallel_with_limit` is embedded as a
  small-step interleaving semantics over a tree of batches (section
  `Executor` below); everything else in the source is sequential `async`
  code and is embedded denotationally.
-/

namespace JJI

/-! ## models.py — the Pydantic data model -/

/-- `models.CodeFix` (models.py): structured code fix suggestion. -/
structure CodeFix where
  file : String := ""
  line : String := ""
  change : String := ""
deriving Repr, DecidableEq

/-- `models.JiraMatch` (models.py): a Jira issue that potentially matches a
product bug.  Python `float` scores only ever come from AI output and are
compared/sorted; we embed the score as a rational number. -/
structure JiraMatch where
  key : String
  summary : String
  status : String := ""
  priority : String := ""
  url : String := ""
  score : Rat := 0
deriving Repr, DecidableEq

/-- `models.ProductBugReport` (models.py): structured product bug report from
AI analysis.  `jira_matches` starts empty and is only filled by the Jira
enrichment pass. -/
structure ProductBugReport where
  title : String := ""
  severity : String := ""
  component : String := ""
  description : String := ""
  evidence : String := ""
  jira_search_keywords : List String := []
  jira_matches : List JiraMatch := []
deriving Repr, DecidableEq

/-- The Python type `CodeFix | bool | None` of `AnalysisDetail.code_fix`
(default `False`).  Pydantic accepts any of the three alternatives; Python
truthiness of the value is what the mutual-exclusivity validator tests. -/
inductive CodeFixField where
  | none
  | bool (b : Bool)
  | fix (f : CodeFix)
deriving Repr, DecidableEq

/-- Python truthiness of a `CodeFix | bool | None` value: `None` and `False`
are falsy, a `CodeFix` instance (a Pydantic `BaseModel`) is always truthy. -/
def CodeFixField.truthy : CodeFixField → Bool
  | .none => false
  | .bool b => b
  | .fix _ => true

/-- The Python type `ProductBugReport | bool | None` of
`AnalysisDetail.product_bug_report` (default `False`). -/
inductive BugReportField where
  | none
  | bool (b : Bool)
  | report (r : ProductBugReport)
deriving Repr, DecidableEq

/-- Python truthiness of a `ProductBugReport | bool | None` value. -/
def BugReportField.truthy : BugReportField → Bool
  | .none => false
  | .bool b => b
  | .report _ => true

/-- `models.AnalysisDetail` (models.py): structured AI analysis broken into
sections.  Constructed only through `AnalysisDetail.validate` below, which
embeds the Pydantic `model_validator`. -/
structure AnalysisDetail where
  classification : String := ""
  affected_tests : List String := []
  details : String := ""
  code_fix : CodeFixField := .bool false
  product_bug_report : BugReportField := .bool false
deriving Repr, DecidableEq

/-- The Pydantic `mode="after"` validator `check_mutual_exclusivity`
(models.py): constructing an `AnalysisDetail` whose `code_fix` and
`product_bug_report` are both truthy raises
`ValueError("code_fix and product_bug_report are mutually exclusive")`,
which Pydantic surfaces as a validation error.  We embed construction as an
`Except`-valued smart constructor applying the validator. -/
def AnalysisDetail.validate (d : AnalysisDetail) : Except String AnalysisDetail :=
  if d.code_fix.truthy ∧ d.product_bug_report.truthy then
    .error "code_fix and product_bug_report are mutually exclusive"
  else
    .ok d

/-- `models.FailureAnalysis` (models.py): analysis result for a single test
failure, in the data-model version that `main.py` and `jira.py` consume. -/
structure FailureAnalysis where
  test_name : String
  error : String
  analysis : AnalysisDetail
deriving Repr, DecidableEq

end JJI

namespace JJI

/-! ## JSON values and `json.loads`

`analyzer.parse_ai_response` calls the Python stdlib `json.loads`.  We embed
JSON values and a recognizer for them.  Number literals are embedded as
integers (the analyzer never depends on fractional literal values) and
`\uXXXX` string escapes are not recognized; on every other input the
recognizer agrees with `json.loads`. -/

/-- A Python value as produced by `json.loads` (dicts keep insertion order;
duplicate keys resolve to the last occurrence, see `Json.get`). -/
inductive Json where
  | null
  | bool (b : Bool)
  | num (n : Int)
  | str (s : String)
  | arr (items : List Json)
  | obj (members : List (String × Json))
deriving Repr, BEq

/-- The `Char`s `0x7b` and `0x7d` (left and right curly brace). -/
def lbrace : Char := Char.ofNat 123

/-- Right curly brace. -/
def rbrace : Char := Char.ofNat 125

/-- Python `dict.get(key)`: last binding wins for duplicate keys. -/
def Json.get (j : Json) (key : String) : Option Json :=
  match j with
  | .obj members => (members.reverse.find? (fun kv => kv.1 = key)).map (·.2)
  | _ => none

/-- JSON whitespace skipping. -/
def skipWs : List Char → List Char
  | c :: cs => if c = ' ' ∨ c = '\t' ∨ c = '\n' ∨ c = '\r' then skipWs cs else c :: cs
  | [] => []

/-- Match a literal character sequence. -/
def stripChars : List Char → List Char → Option (List Char)
  | [], cs => some cs
  | p :: ps, c :: cs => if c = p then stripChars ps cs else Option.none
  | _ :: _, [] => Option.none

/-- One JSON string escape (after a backslash). `\uXXXX` is not modelled. -/
def unescapeChar (c : Char) : Option Char :=
  if c = '"' then some '"'
  else if c = '\\' then some '\\'
  else if c = '/' then some '/'
  else if c = 'n' then some '\n'
  else if c = 't' then some '\t'
  else if c = 'r' then some '\r'
  else if c = 'b' then some (Char.ofNat 8)
  else if c = 'f' then some (Char.ofNat 12)
  else Option.none

/-- Parse a JSON string body (cursor just after the opening quote),
returning the decoded string and the remainder after the closing quote. -/
def parseJString : List Char → Option (String × List Char)
  | [] => Option.none
  | c :: cs =>
    if c = '"' then some ("", cs)
    else if c = '\\' then
      match cs with
      | e :: cs' =>
        match unescapeChar e with
        | some ch => (parseJString cs').map (fun p => (ch.toString ++ p.1, p.2))
        | Option.none => Option.none
      | [] => Option.none
    else (parseJString cs).map (fun p => (c.toString ++ p.1, p.2))

/-- Leading decimal digits and the remainder. -/
def takeDigits : List Char → (List Char × List Char)
  | c :: cs =>
    if c.isDigit then
      let p := takeDigits cs
      (c :: p.1, p.2)
    else ([], c :: cs)
  | [] => ([], [])

/-- Digit list to a natural number. -/
def digitsToNat (ds : List Char) : Nat :=
  ds.foldl (fun acc c => acc * 10 + (c.toNat - 48)) 0

mutual

/-- Parse one JSON value (fuel-indexed recursion; `jsonLoads` supplies
enough fuel for any input). -/
def parseJVal : Nat → List Char → Option (Json × List Char)
  | 0, _ => Option.none
  | fuel + 1, cs =>
    match skipWs cs with
    | [] => Option.none
    | c :: rest =>
      if c = 'n' then (stripChars ['u', 'l', 'l'] rest).map (fun r => (Json.null, r))
      else if c = 't' then (stripChars ['r', 'u', 'e'] rest).map (fun r => (Json.bool true, r))
      else if c = 'f' then (stripChars ['a', 'l', 's', 'e'] rest).map (fun r => (Json.bool false, r))
      else if c = '"' then (parseJString rest).map (fun p => (Json.str p.1, p.2))
      else if c = '-' then
        match takeDigits rest with
        | ([], _) => Option.none
        | (ds, r) => some (Json.num (-(digitsToNat ds : Int)), r)
      else if c.isDigit then
        match takeDigits (c :: rest) with
        | (ds, r) => some (Json.num (digitsToNat ds : Int), r)
      else if c = '[' then
        match skipWs rest with
        | ']' :: r => some (Json.arr [], r)
        | r => (parseJItems fuel r).map (fun p => (Json.arr p.1, p.2))
      else if c = lbrace then
        match skipWs rest with
        | c' :: r =>
          if c' = rbrace then some (Json.obj [], r)
          else (parseJMembers fuel (c' :: r)).map (fun p => (Json.obj p.1, p.2))
        | [] => Option.none
      else Option.none

/-- Parse the comma-separated items of a JSON array, consuming the closing
bracket. -/
def parseJItems : Nat → List Char → Option (List Json × List Char)
  | 0, _ => Option.none
  | fuel + 1, cs =>
    match parseJVal fuel cs with
    | Option.none => Option.none
    | some (v, rest) =>
      match skipWs rest with
      | ',' :: r => (parseJItems fuel r).map (fun p => (v :: p.1, p.2))
      | ']' :: r => some ([v], r)
      | _ => Option.none

/-- Parse the comma-separated `"key": value` members of a JSON object,
consuming the closing brace. -/
def parseJMembers : Nat → List Char → Option (List (String × Json) × List Char)
  | 0, _ => Option.none
  | fuel + 1, cs =>
    match skipWs cs with
    | '"' :: r =>
      match parseJString r with
      | Option.none => Option.none
      | some (key, rest) =>
        match skipWs rest with
        | ':' :: r2 =>
          match parseJVal fuel r2 with
          | Option.none => Option.none
          | some (v, rest2) =>
            match skipWs rest2 with
            | ',' :: r3 => (parseJMembers fuel r3).map (fun p => ((key, v) :: p.1, p.2))
            | c :: r3 => if c = rbrace then some ([(key, v)], r3) else Option.none
            | [] => Option.none
        | _ => Option.none
    | _ => Option.none

end

/-- `json.loads`: parse the whole text as one JSON document (surrounding
whitespace allowed), failing on trailing garbage, exactly as `json.loads`
raises `JSONDecodeError`. -/
def jsonLoads (s : String) : Option Json :=
  let cs := s.toList
  match parseJVal (2 * cs.length + 2) cs with
  | some (v, rest) => if skipWs rest = [] then some v else Option.none
  | Option.none => Option.none

/-! ## analyzer.parse_ai_response -/

/-- The span matched by `re.search(r"\x7b.*\x7d", response_text, re.DOTALL)`
(analyzer.py).  With `DOTALL` and a greedy `.*`, the match runs from the
first left brace to the last right brace, and exists exactly when some
right brace occurs after some left brace. -/
def braceSpan (s : String) : Option String :=
  let cs := s.toList
  match cs.findIdx? (· = lbrace), (cs.reverse.findIdx? (· = rbrace)) with
  | some i, some jr =>
    let j := cs.length - 1 - jr
    if i < j then some (String.mk ((cs.drop i).take (j - i + 1))) else Option.none
  | _, _ => Option.none

/-- The fixed dictionary `analyzer.parse_ai_response` returns when both
decode attempts fail. -/
def parseFailureFallback : Json :=
  Json.obj [("summary", Json.str "Failed to parse AI response"), ("failures", Json.arr [])]

/-- `analyzer.parse_ai_response` (analyzer.py): try `json.loads` on the
whole text; on decode failure, try `json.loads` on the first-brace to
last-brace span; if that too fails (or no span exists), return the fixed
parse-failure dictionary. -/
def parse_ai_response (response_text : String) : Json :=
  match jsonLoads response_text with
  | some v => v
  | Option.none =>
    match braceSpan response_text with
    | some span =>
      match jsonLoads span with
      | some v => v
      | Option.none => parseFailureFallback
    | Option.none => parseFailureFallback

/-- Modelled from the spec (§4.4), for comparison with the code: the claimed
fallback, an `UNKNOWN`-classified verdict whose narrative is the entire raw
text verbatim. -/
def specUnknownFallback (raw : String) : Json :=
  Json.obj [("classification", Json.str "UNKNOWN"), ("narrative", Json.str raw)]

mutual

/-- Does the string `t` occur verbatim anywhere in a JSON value (as a string
leaf or an object key)? -/
def Json.mentionsStr : Json → String → Bool
  | .null, _ => false
  | .bool _, _ => false
  | .num _, _ => false
  | .str s, t => s == t
  | .arr items, t => Json.mentionsStrList items t
  | .obj ms, t => Json.mentionsStrMembers ms t

/-- `Json.mentionsStr` over a list of values. -/
def Json.mentionsStrList : List Json → String → Bool
  | [], _ => false
  | j :: js, t => Json.mentionsStr j t || Json.mentionsStrList js t

/-- `Json.mentionsStr` over object members. -/
def Json.mentionsStrMembers : List (String × Json) → String → Bool
  | [], _ => false
  | (k, v) :: ms, t => k == t || Json.mentionsStr v t || Json.mentionsStrMembers ms t

end

/-! ## analyzer.extract_relevant_console_lines -/

/-- `FALLBACK_TAIL_LINES` (analyzer.py). -/
def FALLBACK_TAIL_LINES : Nat := 200

/-- Split a character list at newline characters. -/
def splitOnNl : List Char → List (List Char)
  | [] => [[]]
  | c :: cs =>
    if c = '\n' then [] :: splitOnNl cs
    else
      match splitOnNl cs with
      | l :: ls => (c :: l) :: ls
      | [] => [[c]]

/-- Python `str.splitlines()` restricted to `\n` line boundaries (the only
boundary the analyzer's console text uses): no trailing empty entry. -/
def splitlines (s : String) : List String :=
  match s.toList with
  | [] => []
  | cs =>
    let parts := (splitOnNl cs).map (fun l => String.mk l)
    if cs.getLast? = some '\n' then parts.dropLast else parts

/-- Python whitespace (the characters `str.strip()` removes). -/
def isPySpace (c : Char) : Bool :=
  c = ' ' ∨ c = '\t' ∨ c = '\n' ∨ c = '\r' ∨ c = Char.ofNat 11 ∨ c = Char.ofNat 12

/-- Python `line.startswith((" ", "\t"))`. -/
def startsWithSpaceTab (s : String) : Bool :=
  match s.toList with
  | c :: _ => c = ' ' ∨ c = '\t'
  | [] => false

/-- Python `line.strip() == ""`: every character is whitespace. -/
def isBlankLine (s : String) : Bool := s.toList.all isPySpace

/-- ASCII lowercase of a string. -/
def lowerStr (s : String) : String := String.mk (s.toList.map Char.toLower)

/-- A regex `\w` word character (ASCII; the analyzer's keywords are ASCII). -/
def isWordChar (c : Char) : Bool := c.isAlphanum || c = '_'

/-- The maximal word-character runs of a line (accumulator holds the current
run reversed). -/
def wordsAux : List Char → List Char → List String
  | [], acc => if acc.isEmpty then [] else [String.mk acc.reverse]
  | c :: cs, acc =>
    if isWordChar c then wordsAux cs (c :: acc)
    else if acc.isEmpty then wordsAux cs []
    else String.mk acc.reverse :: wordsAux cs []

/-- The maximal word-character runs of a line. -/
def words (s : String) : List String := wordsAux s.toList []

/-- The alternatives of `ERROR_PATTERN` (analyzer.py): the regex
`\b(error|fail(ed|ure)?|exception|traceback|assert(ion)?|warn(ing)?|critical|fatal)\b`
matches a line exactly when one of these words occurs as a whole
word-character run. -/
def errorKeywords : List String :=
  ["error", "fail", "failed", "failure", "exception", "traceback",
   "assert", "assertion", "warn", "warning", "critical", "fatal"]

/-- `ERROR_PATTERN.search(line)` (case-insensitive, word boundaries). -/
def errorPatternSearch (line : String) : Bool :=
  (words line).any (fun w => errorKeywords.contains (lowerStr w))

/-- The loop state of `extract_relevant_console_lines`: appended line
indices in order (the lines themselves are recovered by index), the set of
seen indices, and the traceback flag. -/
structure ExtractState where
  relevant : List Nat
  seen : Finset Nat
  in_traceback : Bool

/-- The initial loop state. -/
def initExtractState : ExtractState := ⟨[], ∅, false⟩

/-- Append index `i`'s line unless already seen (the
`if i not in seen_indices` pattern of the source). -/
def ExtractState.addIdx (st : ExtractState) (i : Nat) : ExtractState :=
  if i ∈ st.seen then st
  else { st with relevant := st.relevant ++ [i], seen := insert i st.seen }

/-- The context range `range(max(0, i - 2), i)` of the source. -/
def ctxRange (i : Nat) : List Nat := List.range' (i - 2) (i - (i - 2))

/-- One iteration of the `for i, line in enumerate(lines)` loop of
`extract_relevant_console_lines` (analyzer.py). -/
def processLine (lines : List String) (st : ExtractState) (i : Nat) : ExtractState :=
  if errorPatternSearch (lines.getD i "") then
    { ((ctxRange i).foldl ExtractState.addIdx st).addIdx i with in_traceback := true }
  else if st.in_traceback then
    if startsWithSpaceTab (lines.getD i "") || isBlankLine (lines.getD i "") then st.addIdx i
    else { st with in_traceback := false }
  else st

/-- The final loop state over all lines. -/
def extractLoop (lines : List String) : ExtractState :=
  (List.range lines.length).foldl (processLine lines) initExtractState

/-- `analyzer.extract_relevant_console_lines` (analyzer.py): keep error
lines with two lines of leading context and trailing indented traceback
lines; if none were found, fall back to the last 200 lines (or the whole
input when it has at most 200 lines). -/
def extract_relevant_console_lines (console_output : String) : String :=
  let lines := splitlines console_output
  let st := extractLoop lines
  if st.relevant ≠ [] then
    String.intercalate "\n" (st.relevant.map (fun i => lines.getD i ""))
  else if lines.length > FALLBACK_TAIL_LINES then
    String.intercalate "\n" (lines.drop (lines.length - FALLBACK_TAIL_LINES))
  else console_output

/-- The loop state after processing the first `m` lines. -/
def extractLoopAt (lines : List String) (m : Nat) : ExtractState :=
  (List.range m).foldl (processLine lines) initExtractState

/-! ## analyzer.run_parallel_with_limit — executor semantics

`run_parallel_with_limit` (analyzer.py:36-58) wraps each submitted
coroutine in `bounded`, which acquires a semaphore **constructed afresh
inside this very invocation** (`semaphore = asyncio.Semaphore(max_concurrency)`,
line 49), awaits the coroutine, and releases; the wrapped tasks are passed
to `asyncio.gather(..., return_exceptions=True)`, whose contract is to
return one entry per task, in argument order, with a raised exception
captured as that entry.

We embed this as a small-step interleaving semantics over a tree of
batches.  A *leaf* is an atomic unit of work carrying its eventual outcome
(a value, or the exception it raises); a *batch* is one invocation of
`run_parallel_with_limit` with its own fresh semaphore of capacity
`limit` over its child units.  A child is `pending` until it acquires a
permit from its parent's semaphore, `active` while it holds it, and
`done` once it has finished and released it.  An `active` batch child is
a recursive `analyze_child_job` call awaiting its own nested
`run_parallel_with_limit`, so steps may also fire inside it. -/

/-- `MAX_CONCURRENT_AI_CALLS` (analyzer.py): the default
`max_concurrency`. -/
def MAX_CONCURRENT_AI_CALLS : Nat := 10

/-- Scheduling status of a unit within its parent batch. -/
inductive UStatus where
  | pending
  | active
  | done
deriving Repr, DecidableEq

/-- A tree of units of work: leaves are atomic coroutines with their
eventual outcome; a batch node is one `run_parallel_with_limit` invocation
with its own semaphore capacity and child units. -/
inductive UTree (ε α : Type) where
  | leaf (s : UStatus) (outcome : Except ε α)
  | batch (s : UStatus) (limit : Nat) (children : List (UTree ε α))
deriving Repr

/-- The status of a unit within its parent batch. -/
def UTree.status {ε α : Type} : UTree ε α → UStatus
  | .leaf s _ => s
  | .batch s _ _ => s

/-- How many of a batch's children currently hold one of its semaphore's
permits. -/
def countActive {ε α : Type} (cs : List (UTree ε α)) : Nat :=
  cs.countP (fun c => c.status = .active)

/-- One scheduler step.  A child may acquire a permit of its parent's
semaphore only while fewer than `limit` siblings hold one; an active leaf
may finish (with a value or an exception — both release the permit, because
`bounded` releases on normal return and on unwinding alike); an active
batch child finishes once all of its own children are done; and a step may
fire inside an active batch child (`inner`) — its nested semaphore is
independent of the parent's. -/
inductive Step {ε α : Type} : UTree ε α → UTree ε α → Prop where
  | startLeaf {lim : Nat} {cs : List (UTree ε α)} {i : Nat} {out : Except ε α} :
      cs[i]? = some (.leaf .pending out) →
      countActive cs < lim →
      Step (.batch .active lim cs) (.batch .active lim (cs.set i (.leaf .active out)))
  | startBatch {lim : Nat} {cs : List (UTree ε α)} {i l' : Nat} {gs : List (UTree ε α)} :
      cs[i]? = some (.batch .pending l' gs) →
      countActive cs < lim →
      Step (.batch .active lim cs) (.batch .active lim (cs.set i (.batch .active l' gs)))
  | finishLeaf {lim : Nat} {cs : List (UTree ε α)} {i : Nat} {out : Except ε α} :
      cs[i]? = some (.leaf .active out) →
      Step (.batch .active lim cs) (.batch .active lim (cs.set i (.leaf .done out)))
  | finishBatch {lim : Nat} {cs : List (UTree ε α)} {i l' : Nat} {gs : List (UTree ε α)} :
      cs[i]? = some (.batch .active l' gs) →
      (∀ g ∈ gs, g.status = .done) →
      Step (.batch .active lim cs) (.batch .active lim (cs.set i (.batch .done l' gs)))
  | inner {lim : Nat} {cs : List (UTree ε α)} {i : Nat} {c c' : UTree ε α} :
      cs[i]? = some c →
      Step c c' →
      Step (.batch .active lim cs) (.batch .active lim (cs.set i c'))

/-- Reachability under the scheduler. -/
def Steps {ε α : Type} : UTree ε α → UTree ε α → Prop :=
  Relation.ReflTransGen Step

/-- One invocation of `run_parallel_with_limit` over atomic coroutines with
the given eventual outcomes: the root batch is running (its caller awaits
it) and every unit is pending. -/
def leafBatch {ε α : Type} (outs : List (Except ε α)) (lim : Nat) : UTree ε α :=
  .batch .active lim (outs.map (fun o => .leaf .pending o))

/-- All of a node's children are done — `asyncio.gather` is about to
return. -/
def AllDone {ε α : Type} : UTree ε α → Prop
  | .leaf _ _ => True
  | .batch _ _ cs => ∀ c ∈ cs, c.status = .done

/-- The result list `asyncio.gather(..., return_exceptions=True)` assembles
for a batch of atomic units: one entry per child, in child order, a raised
exception appearing as its unit's entry (`none` if some child is not an
atomic unit). -/
def resultsOf {ε α : Type} : UTree ε α → Option (List (Except ε α))
  | .batch _ _ cs => cs.mapM (fun c => match c with
      | .leaf _ out => some out
      | .batch _ _ _ => Option.none)
  | .leaf _ _ => Option.none

/-- Every live batch respects its own semaphore: at most `limit` children
hold permits at once, recursively. -/
inductive BatchBounded {ε α : Type} : UTree ε α → Prop where
  | leaf (s : UStatus) (out : Except ε α) : BatchBounded (.leaf s out)
  | batch (s : UStatus) (lim : Nat) (cs : List (UTree ε α)) :
      countActive cs ≤ lim →
      (∀ c ∈ cs, BatchBounded c) →
      BatchBounded (.batch s lim cs)

mutual

/-- The number of leaves currently executing anywhere in the tree. -/
def runningLeaves {ε α : Type} : UTree ε α → Nat
  | .leaf s _ => if s = .active then 1 else 0
  | .batch _ _ cs => runningLeavesList cs

/-- `runningLeaves` summed over a list of children. -/
def runningLeavesList {ε α : Type} : List (UTree ε α) → Nat
  | [] => 0
  | c :: cs => runningLeaves c + runningLeavesList cs

end

/-- A pipeline run shaped like analyzer.py's recursion: one root
`run_parallel_with_limit` batch (limit 2) over two recursive
`analyze_child_job` units, each of which fans out through its own fresh
`run_parallel_with_limit` batch (limit 2) over two leaf AI calls. -/
def nestedTwoByTwo : UTree String Nat :=
  .batch .active 2
    [.batch .pending 2 [.leaf .pending (.ok 0), .leaf .pending (.ok 0)],
     .batch .pending 2 [.leaf .pending (.ok 0), .leaf .pending (.ok 0)]]

/-- The state of `nestedTwoByTwo` in which both recursive units hold root
permits and all four of their leaf AI calls run at once. -/
def overloadedState : UTree String Nat :=
  .batch .active 2
    [.batch .active 2 [.leaf .active (.ok 0), .leaf .active (.ok 0)],
     .batch .active 2 [.leaf .active (.ok 0), .leaf .active (.ok 0)]]

/-- Shape invariant of a single `run_parallel_with_limit` invocation over
atomic units: the tree stays one active batch whose children are the given
outcomes' leaves, in the original order, with only statuses varying. -/
def LeafShape {ε α : Type} (outs : List (Except ε α)) (lim : Nat) (t : UTree ε α) : Prop :=
  ∃ sts : List UStatus, sts.length = outs.length ∧
    t = .batch .active lim (List.zipWith (fun s o => UTree.leaf s o) sts outs)

/-- The fully finished state of one `run_parallel_with_limit` invocation
over atomic units. -/
def doneLeafBatch {ε α : Type} (outs : List (Except ε α)) (lim : Nat) : UTree ε α :=
  .batch .active lim (outs.map (fun o => .leaf .done o))

/-! ## String helpers for the walker (kernel-computable models of Python
`str` operations used by analyzer.py and jenkins.py) -/

/-- Split a character list at a separator character (Python `str.split(c)`:
`"".split(c) = [""]` at this level; callers handle the empty case). -/
def splitOnChar (sep : Char) : List Char → List (List Char)
  | [] => [[]]
  | c :: cs =>
    if c = sep then [] :: splitOnChar sep cs
    else
      match splitOnChar sep cs with
      | l :: ls => (c :: l) :: ls
      | [] => [[c]]

/-- Join character lists with a separator list. -/
def intercalateChars (sep : List Char) : List (List Char) → List Char
  | [] => []
  | [l] => l
  | l :: ls => l ++ sep ++ intercalateChars sep ls

/-- Python `str.rstrip("/")`. -/
def rstripSlash (s : String) : String :=
  String.mk ((s.toList.reverse.dropWhile (· = '/')).reverse)

/-- Decimal digit to character. -/
def digitChar (n : Nat) : Char := Char.ofNat (48 + n)

/-- Decimal rendering of a natural number (fuel-indexed so it computes in
the kernel). -/
def natToChars : Nat → Nat → List Char
  | 0, _ => []
  | fuel + 1, n => if n < 10 then [digitChar n] else natToChars fuel (n / 10) ++ [digitChar (n % 10)]

/-- Python `str(n)` for a natural number. -/
def natToStr (n : Nat) : String := String.mk (natToChars (n + 1) n)

/-- Python `str(i)` for an integer. -/
def intToStr : Int → String
  | .ofNat n => natToStr n
  | .negSucc n => "-" ++ natToStr (n + 1)

/-- Is `needle` a substring of `hay` (Python `needle in hay`)? -/
def listContainsSub (needle : List Char) : List Char → Bool
  | [] => needle.isEmpty
  | hay@(_ :: t) => needle.isPrefixOf hay || listContainsSub needle t

/-- Python `needle in hay` on strings. -/
def containsSub (needle hay : String) : Bool :=
  listContainsSub needle.toList hay.toList

/-- Python `job_path.replace(" » ", "/")` (analyzer.py:457): left-to-right,
non-overlapping replacement of the three-character folder separator. -/
def replaceFolderSep : List Char → List Char
  | [] => []
  | [c] => [c]
  | [c1, c2] => [c1, c2]
  | c1 :: c2 :: c3 :: rest =>
    if c1 = ' ' ∧ c2 = '»' ∧ c3 = ' ' then '/' :: replaceFolderSep rest
    else c1 :: replaceFolderSep (c2 :: c3 :: rest)

/-! ## The Jenkins data the walker reads (models.TestFailure and the
dictionary shapes analyzer.py takes from the Jenkins API) -/

/-- `models.TestFailure` (models.py): one failing test case from the
structured test report. -/
structure TestFailure where
  test_name : String
  error_message : String := ""
  stack_trace : String := ""
  duration : Rat := 0
  status : String := "FAILED"
deriving Repr, DecidableEq

/-- One entry of `build_info["subBuilds"]` as read by
`extract_failed_child_jobs` (analyzer.py:396-402). -/
structure SubBuild where
  result : String := ""
  jobName : String := ""
  buildNumber : Int := 0
deriving Repr, DecidableEq

/-- One entry of an action's `triggeredBuilds` list (analyzer.py:404-425).
`number`/`buildNumber` are `Option` because the source reads them with
`dict.get` defaults. -/
structure TriggeredBuild where
  result : String := ""
  jobName : String := ""
  url : String := ""
  number : Option Int := Option.none
  buildNumber : Option Int := Option.none
deriving Repr, DecidableEq

/-- One entry of `build_info["actions"]`; `class_name` models the `_class`
key. -/
structure BuildAction where
  class_name : String := ""
  triggeredBuilds : List TriggeredBuild := []
deriving Repr, DecidableEq

/-- The fields of the Jenkins build-info dictionary that analyzer.py
reads. -/
structure BuildInfo where
  result : Option String := Option.none
  subBuilds : List SubBuild := []
  actions : List BuildAction := []
deriving Repr, DecidableEq

/-- One test case of the structured Jenkins test report
(analyzer.py:487-501); optional fields model `dict.get` with defaults. -/
structure TestCase where
  status : String := ""
  className : String := ""
  name : String := ""
  errorDetails : Option String := Option.none
  errorStackTrace : Option String := Option.none
  duration : Option Rat := Option.none
deriving Repr, DecidableEq

/-- One suite of the test report. -/
structure TestSuite where
  cases : List TestCase := []
deriving Repr, DecidableEq

/-- One `childReports` entry: its `result` object carries nested suites. -/
structure ChildReport where
  suites : List TestSuite := []
deriving Repr, DecidableEq

/-- The structured test report from `/testReport/api/json`. -/
structure TestReport where
  suites : List TestSuite := []
  childReports : List ChildReport := []
deriving Repr, DecidableEq

/-! ## jenkins.py / analyzer.py pure helpers -/

/-- `JenkinsClient.parse_jenkins_url` (jenkins.py:74-123), with `urlparse`
modelled for `scheme://host/path` URLs: extract the path, strip trailing
slashes, read the build number from the last segment and the job name from
the `/job/` segments (or the second-to-last segment as fallback). -/
def parse_jenkins_url (url : String) : Except String (String × Int) :=
  let cs := url.toList
  -- urlparse(url).path: drop "scheme://host"; without "://" the whole
  -- string is the path (as for relative references without a scheme)
  let path :=
    match splitOnChar '/' cs with
    | _scheme :: [] :: _host :: rest => intercalateChars ['/'] ([] :: rest)
    | _ => cs
  let path := (path.reverse.dropWhile (· = '/')).reverse
  let parts := splitOnChar '/' path
  if parts.length < 2 then
    .error ("Invalid Jenkins URL format: " ++ url)
  else
    match parts.getLast? with
    | Option.none => .error ("Invalid Jenkins URL format: " ++ url)
    | some lastPart =>
      if lastPart.isEmpty ∨ ¬ lastPart.all Char.isDigit then
        .error ("Could not parse build number from URL: " ++ url)
      else
        let build_number : Int := (digitsToNat lastPart : Nat)
        let body := parts.dropLast
        let job_parts := jobSegments body
        if job_parts.isEmpty then
          match body.getLast? with
          | some prev => .ok (String.mk prev, build_number)
          | Option.none => .error ("Invalid Jenkins URL format: " ++ url)
        else
          .ok (String.mk (intercalateChars "/job/".toList job_parts), build_number)
where
  /-- The `while` loop of `parse_jenkins_url`: collect the segment after
  each `"job"` segment, skipping both. -/
  jobSegments : List (List Char) → List (List Char)
    | [] => []
    | seg :: rest =>
      if seg = "job".toList then
        match rest with
        | nxt :: rest2 => nxt :: jobSegments rest2
        | [] => []
      else jobSegments rest

/-- `analyzer.extract_failed_child_jobs` (analyzer.py:381-427): failed or
unstable `(job, build)` pairs from `subBuilds`, then from every action's
`triggeredBuilds` (job name taken from `jobName` or parsed from `url`;
build number from `number` falling back to `buildNumber` then `0`). -/
def extract_failed_child_jobs (build_info : BuildInfo) : List (String × Int) :=
  let from_sub := build_info.subBuilds.filterMap (fun sub =>
    if sub.result = "FAILURE" ∨ sub.result = "UNSTABLE" then
      if sub.jobName ≠ "" ∧ sub.buildNumber ≠ 0 then some (sub.jobName, sub.buildNumber)
      else Option.none
    else Option.none)
  let from_actions : List (String × Int) := build_info.actions.flatMap (fun action =>
    if action.triggeredBuilds ≠ [] ∨ containsSub "BuildAction" action.class_name then
      action.triggeredBuilds.filterMap (fun tb =>
        if tb.result = "FAILURE" ∨ tb.result = "UNSTABLE" then
          let jname :=
            if tb.jobName ≠ "" then some tb.jobName
            else if tb.url ≠ "" then
              match parse_jenkins_url tb.url with
              | .ok p => some p.1
              | .error _ => Option.none
            else some ""
          match jname with
          | Option.none => Option.none
          | some job_name =>
            let build_num : Int := tb.number.getD (tb.buildNumber.getD 0)
            if job_name ≠ "" ∧ build_num ≠ 0 then some (job_name, build_num)
            else Option.none
        else Option.none)
    else [])
  from_sub ++ from_actions

/-- Require at least one whitespace character and drop the run (the `\s+`
of the console pattern, within one line). -/
def dropWs1 : List Char → Option (List Char)
  | c :: r => if isPySpace c then some (r.dropWhile isPySpace) else Option.none
  | [] => Option.none

/-- After the candidate job path: match `\s+#(\d+)\s+completed:\s*` and a
FAILURE or UNSTABLE result, returning the build number. -/
def matchTail (cs : List Char) : Option Int :=
  match dropWs1 cs with
  | Option.none => Option.none
  | some cs1 =>
    match cs1 with
    | '#' :: cs2 =>
      match takeDigits cs2 with
      | ([], _) => Option.none
      | (ds, cs3) =>
        match dropWs1 cs3 with
        | Option.none => Option.none
        | some cs4 =>
          match stripChars "completed:".toList cs4 with
          | Option.none => Option.none
          | some cs5 =>
            let cs6 := cs5.dropWhile isPySpace
            if "FAILURE".toList.isPrefixOf cs6 ∨ "UNSTABLE".toList.isPrefixOf cs6 then
              some ((digitsToNat ds : Nat) : Int)
            else Option.none
    | _ => Option.none

/-- Lazy `(.+?)` capture: extend the path one character at a time until the
tail pattern matches. -/
def findPathSplit (acc : List Char) : List Char → Option (String × Int)
  | [] => Option.none
  | c :: r =>
    match matchTail r with
    | some n => some (String.mk (acc ++ [c]).reverse.reverse, n)
    | Option.none => findPathSplit (acc ++ [c]) r

/-- Match `Build\s+(.+?)\s+#(\d+)\s+completed:\s*(FAILURE|UNSTABLE)`
anchored at the current position. -/
def matchBuildAt (cs : List Char) : Option (String × Int) :=
  match stripChars "Build".toList cs with
  | Option.none => Option.none
  | some r =>
    match dropWs1 r with
    | Option.none => Option.none
    | some r2 => findPathSplit [] r2

/-- Leftmost match of the console child-build pattern in one line. -/
def scanLine : List Char → Option (String × Int)
  | [] => Option.none
  | cs@(_ :: t) =>
    match matchBuildAt cs with
    | some x => some x
    | Option.none => scanLine t

/-- `analyzer.extract_failed_child_jobs_from_console` (analyzer.py:430-460):
the regex findall is modelled line by line (one match per line); each
matched `" » "`-separated folder path is converted to a `/`-joined job
identifier. -/
def extract_failed_child_jobs_from_console (console_output : String) : List (String × Int) :=
  (splitlines console_output).filterMap (fun line =>
    (scanLine line.toList).map (fun p => (String.mk (replaceFolderSep p.1.toList), p.2)))

/-- `analyzer.extract_failures_from_test_report` (analyzer.py:463-504). -/
def extract_failures_from_test_report (test_report : TestReport) : List TestFailure :=
  let suites := test_report.suites ++ test_report.childReports.flatMap (·.suites)
  suites.flatMap (fun suite =>
    suite.cases.filterMap (fun case_ =>
      if case_.status = "FAILED" ∨ case_.status = "REGRESSION" then
        let full_name :=
          if case_.className ≠ "" then case_.className ++ "." ++ case_.name else case_.name
        some { test_name := full_name,
               error_message := case_.errorDetails.getD "",
               stack_trace := case_.errorStackTrace.getD "",
               duration := case_.duration.getD 0,
               status := case_.status }
      else Option.none))

/-- The two-stage child detection of analyzer.py (lines 788-794 and
1001-1007): failed children from the structured build metadata, falling
back to console pattern-matching only when the metadata yields none. -/
def detect_failed_children (build_info : BuildInfo) (console_output : String) :
    List (String × Int) :=
  let fc := extract_failed_child_jobs build_info
  if fc.isEmpty then extract_failed_child_jobs_from_console console_output else fc

/-! ## analyzer.py response plumbing -/

/-- `VALID_SEVERITIES` (analyzer.py). -/
def VALID_SEVERITIES : List String := ["critical", "high", "medium", "low"]

/-- `VALID_CLASSIFICATIONS` (analyzer.py). -/
def VALID_CLASSIFICATIONS : List String := ["code_issue", "product_bug"]

/-- Python truthiness of a JSON-derived value. -/
def truthyJson : Json → Bool
  | .null => false
  | .bool b => b
  | .num n => n ≠ 0
  | .str s => s ≠ ""
  | .arr items => ¬ items.isEmpty
  | .obj members => ¬ members.isEmpty

/-- Python `str()` of a JSON scalar (containers rendered opaquely; the
analyzer only ever displays them inside free-text fields). -/
def jsonScalarStr : Json → String
  | .str s => s
  | .num n => intToStr n
  | .bool b => if b then "True" else "False"
  | .null => "None"
  | .arr _ => "[...]"
  | .obj _ => "\x7b...\x7d"

/-- `analyzer.ensure_string` (analyzer.py:652-675). -/
def ensure_string : Json → String
  | .null => ""
  | .str s => s
  | .obj members =>
    String.intercalate "\n" (members.map (fun kv => kv.1 ++ ": " ++ jsonScalarStr kv.2))
  | .arr items => String.intercalate "\n" (items.map jsonScalarStr)
  | v => jsonScalarStr v

/-- Key membership in a JSON object (Python `key in dict`). -/
def Json.hasKey (j : Json) (key : String) : Bool :=
  match j with
  | .obj members => members.any (fun kv => kv.1 = key)
  | _ => false

/-- A string field of a response dictionary with a default (Python
`d.get(k, dflt)`; non-string values are rendered, as they would be once
interpolated). -/
def getStrD (j : Json) (key : String) (dflt : String) : String :=
  match j.get key with
  | some (.str s) => s
  | some v => jsonScalarStr v
  | Option.none => dflt

/-! The walker-side records: analyzer.py imports `FailureAnalysis` and
`BugReport` shapes that predate the snapshot's models.py (which has the
newer `AnalysisDetail`-based form).  The shapes below are reconstructed
from the analyzer's own constructor calls
(`FailureAnalysis(test_name=..., error=..., classification=...,
explanation=..., fix_suggestion=..., bug_report=...)`,
`BugReport(title=..., description=..., severity=..., component=...,
evidence=...)`). -/

/-- The analyzer's `BugReport` record (reconstructed, see above). -/
structure WBugReport where
  title : String := ""
  description : String := ""
  severity : String := "medium"
  component : String := "Unknown"
  evidence : String := ""
deriving Repr, DecidableEq

/-- The analyzer's per-test `FailureAnalysis` record (reconstructed, see
above). -/
structure WFailureAnalysis where
  test_name : String
  error : String
  classification : String
  explanation : String := ""
  fix_suggestion : Option String := Option.none
  bug_report : Option WBugReport := Option.none
deriving Repr, DecidableEq

/-- `models.ChildJobAnalysis` (models.py:193-212): the recursive result
tree of the walker. -/
inductive ChildJobAnalysis where
  | mk (job_name : String) (build_number : Int) (jenkins_url : String)
       (summary : Option String) (failures : List WFailureAnalysis)
       (failed_children : List ChildJobAnalysis) (note : Option String)
deriving Repr

/-- Job name of a walker node. -/
def ChildJobAnalysis.job_name : ChildJobAnalysis → String
  | .mk j _ _ _ _ _ _ => j

/-- Build number of a walker node. -/
def ChildJobAnalysis.build_number : ChildJobAnalysis → Int
  | .mk _ b _ _ _ _ _ => b

/-- Jenkins URL of a walker node. -/
def ChildJobAnalysis.jenkins_url : ChildJobAnalysis → String
  | .mk _ _ u _ _ _ _ => u

/-- Summary of a walker node. -/
def ChildJobAnalysis.summary : ChildJobAnalysis → Option String
  | .mk _ _ _ s _ _ _ => s

/-- Direct verdicts of a walker node. -/
def ChildJobAnalysis.failures : ChildJobAnalysis → List WFailureAnalysis
  | .mk _ _ _ _ f _ _ => f

/-- Child nodes of a walker node. -/
def ChildJobAnalysis.failed_children : ChildJobAnalysis → List ChildJobAnalysis
  | .mk _ _ _ _ _ c _ => c

/-- Note of a walker node. -/
def ChildJobAnalysis.note : ChildJobAnalysis → Option String
  | .mk _ _ _ _ _ _ n => n

mutual

/-- Nesting depth of a walker result tree (0 for a node without
children). -/
def nodeDepth : ChildJobAnalysis → Nat
  | .mk _ _ _ _ _ cs _ => nodeDepthList cs

/-- Maximum of `1 + nodeDepth` over a list of children. -/
def nodeDepthList : List ChildJobAnalysis → Nat
  | [] => 0
  | c :: cs => max (1 + nodeDepth c) (nodeDepthList cs)

end

/-- `analyzer.build_failures_from_response` (analyzer.py:678-720) on the
decoded response; non-dictionary entries of `failures` are skipped (in
Python they would raise and be absorbed by the caller's except-fallback). -/
def build_failures_from_response (response_data : Json) : List WFailureAnalysis :=
  match response_data.get "failures" with
  | some (.arr fs) =>
    fs.filterMap (fun f =>
      match f with
      | .obj _ =>
        let bug_report :=
          match f.get "bug_report" with
          | some br =>
            if truthyJson br then
              let severity := getStrD br "severity" "medium"
              let severity := if VALID_SEVERITIES.contains severity then severity else "medium"
              some { title := ensure_string ((br.get "title").getD (.str "")),
                     description := ensure_string ((br.get "description").getD (.str "")),
                     severity := severity,
                     component := getStrD br "component" "Unknown",
                     evidence := ensure_string ((br.get "evidence").getD (.str "")) }
            else (Option.none : Option WBugReport)
          | Option.none => Option.none
        let classification := getStrD f "classification" "code_issue"
        let classification :=
          if VALID_CLASSIFICATIONS.contains classification then classification else "code_issue"
        let fix_suggestion_value := f.get "fix_suggestion"
        some { test_name := getStrD f "test_name" "Unknown",
               error := ensure_string ((f.get "error").getD (.str "")),
               classification := classification,
               explanation := ensure_string ((f.get "explanation").getD (.str "")),
               fix_suggestion :=
                 match fix_suggestion_value with
                 | some v => if truthyJson v then some (ensure_string v) else Option.none
                 | Option.none => Option.none,
               bug_report := bug_report }
      | _ => Option.none)
  | _ => []

/-! ## The walker itself -/

/-- One backend or Jenkins call made during a walk, for counting and
ordering arguments. -/
inductive CallEvent where
  | buildInfo (job : String) (num : Int)
  | console (job : String) (num : Int)
  | testReport (job : String) (num : Int)
  | aiCall (test_name : String)
  | aiConsoleCall (job : String) (num : Int)
deriving Repr, DecidableEq

/-- Number of per-test backend analysis calls in a walk's log. -/
def countAICalls (log : List CallEvent) : Nat :=
  log.countP (fun e => match e with | .aiCall _ => true | _ => false)

/-- An exception raised by the Jenkins client, as distinguished by
`handle_jenkins_exception` (analyzer.py:266-316): a
`jenkins.NotFoundException`, another `jenkins.JenkinsException` with its
message, or any other exception with its message. -/
inductive JenkinsExc where
  | notFound
  | jenkins (msg : String)
  | other (msg : String)
deriving Repr, DecidableEq

/-- Python `str(e)` on a Jenkins exception (only the message is
rendered). -/
def JenkinsExc.text : JenkinsExc → String
  | .notFound => "Not found"
  | .jenkins m => m
  | .other m => m

/-- `fastapi.HTTPException` as raised by the analyzer. -/
structure HTTPException where
  status_code : Nat
  detail : String
deriving Repr, DecidableEq

/-- `analyzer.handle_jenkins_exception` (analyzer.py:266-316): map a
Jenkins client exception to the HTTP error surfaced for the whole run. -/
def handle_jenkins_exception (e : JenkinsExc) (job_name : String)
    (build_number : Int) : HTTPException :=
  let notFoundDetail :=
    "Job '" ++ job_name ++ "' build #" ++ intToStr build_number ++ " not found in Jenkins"
  match e with
  | .notFound => ⟨404, notFoundDetail⟩
  | .jenkins msg =>
    let low := lowerStr msg
    if containsSub "does not exist" low ∨ containsSub "not found" low ∨ containsSub "404" low then
      ⟨404, notFoundDetail⟩
    else if containsSub "unauthorized" low ∨ containsSub "401" low then
      ⟨502, "Jenkins authentication failed. Check JENKINS_USER and JENKINS_PASSWORD."⟩
    else if containsSub "forbidden" low ∨ containsSub "403" low then
      ⟨502, "Access denied to job '" ++ job_name ++ "'. Check Jenkins permissions."⟩
    else ⟨502, "Jenkins error: " ++ msg⟩
  | .other msg => ⟨502, "Failed to connect to Jenkins: " ++ msg⟩

/-- The external collaborators of the walker, injected as oracles: the
Jenkins client methods (which may raise), and the AI backend invocation.
The AI oracles receive the structured ingredients of the prompts the
source interpolates into its f-strings (the prompt text itself carries no
additional information). -/
structure WalkerEnv where
  get_build_info_safe : String → Int → Except JenkinsExc BuildInfo
  get_build_console : String → Int → Except JenkinsExc String
  get_test_report : String → Int → Option TestReport
  ai_analyze_failure : TestFailure → String → Option Unit → Except String String
  ai_analyze_console : String → Int → String → BuildInfo → String → Except String String
  clone : String → Except String Unit

/-- The Jenkins build URL the walker constructs
(`"/job/".join(job_name.split("/"))` under the configured base URL). -/
def jenkinsBuildUrl (base job_name : String) (build_number : Int) : String :=
  let job_path := intercalateChars "/job/".toList (splitOnChar '/' job_name.toList)
  rstripSlash base ++ "/job/" ++ String.mk job_path ++ "/" ++ intToStr build_number ++ "/"

/-- `analyzer.analyze_single_test_failure` (analyzer.py:507-625): one
dedicated backend call per failing test; a raised backend error or an
unparseable response degrades to a `code_issue` fallback record; never
raises. -/
def analyze_single_test_failure (env : WalkerEnv) (failure : TestFailure)
    (console_context : String) (repo_path : Option Unit) :
    WFailureAnalysis × List CallEvent :=
  match env.ai_analyze_failure failure console_context repo_path with
  | .error e =>
    ({ test_name := failure.test_name, error := failure.error_message,
       classification := "code_issue",
       explanation := "AI analysis failed: " ++ e }, [.aiCall failure.test_name])
  | .ok response_text =>
    let response_data := parse_ai_response response_text
    let response_data :=
      if response_data.hasKey "failures" then response_data
      else Json.obj [("failures", Json.arr [response_data])]
    match build_failures_from_response response_data with
    | fa :: _ => (fa, [.aiCall failure.test_name])
    | [] =>
      ({ test_name := failure.test_name, error := failure.error_message,
         classification := "code_issue",
         explanation := "AI analysis failed to parse response" },
       [.aiCall failure.test_name])

/-- The aggregator summary of a pipeline node (analyzer.py:829-843 and
1076-1089): counts only the children's **direct** verdicts, a verdict
counting as a code issue exactly when classified `"code_issue"` and as a
product bug otherwise. -/
def pipelineSummary (child_analyses : List ChildJobAnalysis) : String :=
  let code_issues :=
    (child_analyses.map (fun ch => ch.failures.countP (fun f => f.classification = "code_issue"))).sum
  let product_bugs :=
    (child_analyses.map (fun ch => ch.failures.countP (fun f => ¬ f.classification = "code_issue"))).sum
  let total := code_issues + product_bugs
  let base := "Pipeline failed due to " ++ natToStr child_analyses.length ++ " child job(s)."
  if total > 0 then
    base ++ " Total: " ++ natToStr total ++ " failure(s) - " ++ natToStr code_issues
      ++ " code issue(s), " ++ natToStr product_bugs
      ++ " product bug(s). See child analyses below."
  else base

/-- The leaf summary over per-test analyses (analyzer.py:899-906). -/
def leafSummary (failures : List WFailureAnalysis) : String :=
  let code_issues := failures.countP (fun f => f.classification = "code_issue")
  let product_bugs := failures.countP (fun f => f.classification = "product_bug")
  "Analyzed " ++ natToStr failures.length ++ " test failure(s): " ++ natToStr code_issues
    ++ " code issue(s), " ++ natToStr product_bugs ++ " product bug(s)"

/-- The max-depth terminal note (analyzer.py:759). -/
def maxDepthNote : String :=
  "Max depth reached - analysis stopped to prevent infinite recursion"

/-- `analyzer.analyze_child_job` (analyzer.py:723-943), structurally
recursive on explicit fuel; the wrapper `analyze_child_job` below supplies
`max_depth - depth`, which the `depth + 1` recursion maintains, so the
fuel-exhaustion branch (which mirrors the depth guard) is never taken from
the wrapper.  Returns the node together with the log of external calls
made, in order. -/
def analyze_child_job_fuel (env : WalkerEnv) (base : String) :
    Nat → String → Int → Nat → Nat → Option Unit → ChildJobAnalysis × List CallEvent
  | fuel, job_name, build_number, depth, max_depth, repo_path =>
    let jurl := jenkinsBuildUrl base job_name build_number
    if max_depth ≤ depth then
      (.mk job_name build_number jurl Option.none [] [] (some maxDepthNote), [])
    else
      match fuel with
      | 0 =>
        (.mk job_name build_number jurl Option.none [] [] (some maxDepthNote), [])
      | fuel + 1 =>
        match env.get_build_info_safe job_name build_number with
        | .error e =>
          (.mk job_name build_number jurl Option.none [] []
            (some ("Failed to get build info: " ++ e.text)),
           [.buildInfo job_name build_number])
        | .ok build_info =>
          match env.get_build_console job_name build_number with
          | .error e =>
            (.mk job_name build_number jurl Option.none [] []
              (some ("Failed to get console output: " ++ e.text)),
             [.buildInfo job_name build_number, .console job_name build_number])
          | .ok console_output =>
            let baseLog := [CallEvent.buildInfo job_name build_number,
                            CallEvent.console job_name build_number]
            let failed_children := detect_failed_children build_info console_output
            if failed_children.isEmpty then
              -- leaf: structured test report first, then per-test AI calls,
              -- else one whole-console AI call
              let test_report := env.get_test_report job_name build_number
              let test_failures :=
                match test_report with
                | some tr => extract_failures_from_test_report tr
                | Option.none => []
              let console_context := extract_relevant_console_lines console_output
              if test_failures.isEmpty then
                match env.ai_analyze_console job_name build_number console_context build_info "" with
                | .error e =>
                  (.mk job_name build_number jurl Option.none [] []
                    (some ("AI analysis failed: " ++ e)),
                   baseLog ++ [.testReport job_name build_number,
                               .aiConsoleCall job_name build_number])
                | .ok response_text =>
                  let response_data := parse_ai_response response_text
                  let failures := build_failures_from_response response_data
                  (.mk job_name build_number jurl
                    (some (getStrD response_data "summary" "Analysis complete"))
                    failures [] Option.none,
                   baseLog ++ [.testReport job_name build_number,
                               .aiConsoleCall job_name build_number])
              else
                let results := test_failures.map
                  (fun tf => analyze_single_test_failure env tf console_context repo_path)
                let failures := results.map (·.1)
                (.mk job_name build_number jurl (some (leafSummary failures))
                  failures [] Option.none,
                 baseLog ++ [.testReport job_name build_number] ++ results.flatMap (·.2))
            else
              -- aggregator: recurse into each failed child; no direct verdicts
              let child_results := failed_children.map
                (fun p => analyze_child_job_fuel env base fuel p.1 p.2 (depth + 1) max_depth repo_path)
              let child_analyses := child_results.map (·.1)
              (.mk job_name build_number jurl (some (pipelineSummary child_analyses))
                [] child_analyses Option.none,
               baseLog ++ child_results.flatMap (·.2))

/-- `analyzer.analyze_child_job` (analyzer.py:723-943). -/
def analyze_child_job (env : WalkerEnv) (base : String) (job_name : String)
    (build_number : Int) (depth : Nat := 0) (max_depth : Nat := 3)
    (repo_path : Option Unit := Option.none) : ChildJobAnalysis × List CallEvent :=
  analyze_child_job_fuel env base (max_depth - depth) job_name build_number depth max_depth repo_path


/-- `models.AnalysisResult` in the form analyzer.py constructs it (job id,
URL, status, summary, direct failures, and child analyses). -/
structure AnalysisResult where
  job_id : String
  jenkins_url : String
  status : String
  summary : String
  failures : List WFailureAnalysis
  child_job_analyses : List ChildJobAnalysis := []
deriving Repr

/-- How `analyze_job` can fail: a mapped `HTTPException` from
`handle_jenkins_exception` on root fetch errors, or an exception raised
by the console-fallback backend call, which `analyze_job` does not catch. -/
inductive AnalyzeError where
  | http (e : HTTPException)
  | raised (msg : String)
deriving Repr, DecidableEq

/-- The main-job summary line (analyzer.py:1157-1165). -/
def mainSummary (failures : List WFailureAnalysis)
    (child_job_analyses : List ChildJobAnalysis) : String :=
  let code_issues := failures.countP (fun f => f.classification = "code_issue")
  let product_bugs := failures.countP (fun f => f.classification = "product_bug")
  let s := natToStr failures.length ++ " failure(s) analyzed: " ++ natToStr code_issues
    ++ " code issue(s), " ++ natToStr product_bugs ++ " product bug(s)"
  if child_job_analyses.isEmpty then s
  else
    s ++ ". Additionally, " ++ natToStr child_job_analyses.length
      ++ " failed child job(s) were analyzed recursively."

/-- `analyzer.analyze_job` (analyzer.py:946-1177): fetch the root build,
short-circuit on SUCCESS, detect failed children (metadata first, console
fallback), analyze children recursively at `depth = 0`, `max_depth = 3`,
then either return a pure aggregator result (children present and no own
structured test failures), analyze own test failures per test, or fall
back to one whole-console backend call.  Root fetch errors become
`HTTPException`s; a raised backend error in the console fallback
propagates.  Storage, callback and HTML rendering are main.py's concern
and out of scope. -/
def analyze_job (env : WalkerEnv) (base : String) (job_name : String)
    (build_number : Int) (job_id : String) (tests_repo_url : Option String) :
    Except AnalyzeError (AnalysisResult × List CallEvent) :=
  let jenkins_build_url := jenkinsBuildUrl base job_name build_number
  match env.get_build_info_safe job_name build_number with
  | .error e => .error (.http (handle_jenkins_exception e job_name build_number))
  | .ok build_info =>
    if build_info.result = some "SUCCESS" then
      .ok ({ job_id := job_id, jenkins_url := jenkins_build_url, status := "completed",
             summary := "Build passed successfully. No failures to analyze.",
             failures := [] }, [.buildInfo job_name build_number])
    else
      match env.get_build_console job_name build_number with
      | .error e => .error (.http (handle_jenkins_exception e job_name build_number))
      | .ok console_output =>
        let failed_child_jobs := detect_failed_children build_info console_output
        let cloneOutcome : Option (Except String Unit) := tests_repo_url.map env.clone
        let repo_path : Option Unit :=
          match cloneOutcome with
          | some (.ok u) => some u
          | _ => Option.none
        let repo_context : String :=
          match tests_repo_url, cloneOutcome with
          | some u, some (.ok _) => "\nRepository cloned from: " ++ u
          | some _, some (.error e) => "\nFailed to clone repo: " ++ e
          | _, _ => ""
        let child_pairs := failed_child_jobs.map
          (fun p => analyze_child_job env base p.1 p.2 0 3 repo_path)
        let child_job_analyses := child_pairs.map (·.1)
        let childLog := child_pairs.flatMap (·.2)
        let test_report := env.get_test_report job_name build_number
        let test_failures :=
          match test_report with
          | some tr => extract_failures_from_test_report tr
          | Option.none => []
        let baseLog := [CallEvent.buildInfo job_name build_number,
                        CallEvent.console job_name build_number]
        if !child_job_analyses.isEmpty && test_failures.isEmpty then
          .ok ({ job_id := job_id, jenkins_url := jenkins_build_url, status := "completed",
                 summary := pipelineSummary child_job_analyses, failures := [],
                 child_job_analyses := child_job_analyses },
               baseLog ++ childLog ++ [.testReport job_name build_number])
        else
          let console_context := extract_relevant_console_lines console_output
          if !test_failures.isEmpty then
            let results := test_failures.map
              (fun tf => analyze_single_test_failure env tf console_context repo_path)
            let failures := results.map (·.1)
            .ok ({ job_id := job_id, jenkins_url := jenkins_build_url, status := "completed",
                   summary := mainSummary failures child_job_analyses,
                   failures := failures, child_job_analyses := child_job_analyses },
                 baseLog ++ childLog ++ [.testReport job_name build_number]
                   ++ results.flatMap (·.2))
          else
            match env.ai_analyze_console job_name build_number console_context build_info
                repo_context with
            | .error e => .error (.raised e)
            | .ok response_text =>
              let response_data := parse_ai_response response_text
              let failures := build_failures_from_response response_data
              .ok ({ job_id := job_id, jenkins_url := jenkins_build_url,
                     status := "completed",
                     summary := mainSummary failures child_job_analyses,
                     failures := failures, child_job_analyses := child_job_analyses },
                   baseLog ++ childLog ++ [.testReport job_name build_number,
                                           .aiConsoleCall job_name build_number])



/-- A walker environment whose oracles all answer trivially (used to
instantiate universally quantified theorems at a concrete input). -/
def trivialWalkerEnv : WalkerEnv :=
  { get_build_info_safe := fun _ _ => .ok {},
    get_build_console := fun _ _ => .ok "",
    get_test_report := fun _ _ => Option.none,
    ai_analyze_failure := fun _ _ _ => .ok "",
    ai_analyze_console := fun _ _ _ _ _ => .ok "",
    clone := fun _ => .ok () }

/-- A structured test report with five failing tests, the first two sharing
one error signature (identical error message and stack trace) and the
other three each unique. -/
def c4Report : TestReport :=
  { suites := [{ cases :=
      [{ status := "FAILED", className := "suite.T", name := "t1",
         errorDetails := some "AssertionError: shared", errorStackTrace := some "trace shared" },
       { status := "FAILED", className := "suite.T", name := "t2",
         errorDetails := some "AssertionError: shared", errorStackTrace := some "trace shared" },
       { status := "FAILED", className := "suite.T", name := "t3", errorDetails := some "E3" },
       { status := "FAILED", className := "suite.T", name := "t4", errorDetails := some "E4" },
       { status := "FAILED", className := "suite.T", name := "t5", errorDetails := some "E5" }] }] }

/-- A leaf build (no failed children) whose test report is `c4Report`. -/
def c4Env : WalkerEnv :=
  { get_build_info_safe := fun _ _ => .ok {},
    get_build_console := fun _ _ => .ok "no pattern here",
    get_test_report := fun _ _ => some c4Report,
    ai_analyze_failure := fun _ _ _ => .ok "not json",
    ai_analyze_console := fun _ _ _ _ _ => .ok "not json",
    clone := fun _ => .ok () }

/-- Root build metadata with one failed child build. -/
def c6BuildInfo : BuildInfo :=
  { result := some "FAILURE",
    subBuilds := [{ result := "FAILURE", jobName := "child-leaf", buildNumber := 4 }] }

/-- A test report with one failing test of the root build itself. -/
def c6Report : TestReport :=
  { suites := [{ cases :=
      [{ status := "FAILED", className := "r.T", name := "tr",
         errorDetails := some "RootErr" }] }] }

/-- A root build that has both a failed child build and its own structured
test-report failures. -/
def c6Env : WalkerEnv :=
  { get_build_info_safe := fun j _ => if j = "root" then .ok c6BuildInfo else .ok {},
    get_build_console := fun _ _ => .ok "quiet console",
    get_test_report := fun j _ => if j = "root" then some c6Report else Option.none,
    ai_analyze_failure := fun _ _ _ => .ok "not json",
    ai_analyze_console := fun _ _ _ _ _ => .ok "not json",
    clone := fun _ => .ok () }

/-- A root build that has a failed child build and no structured test
report of its own (the pure-aggregator situation). -/
def c6AggEnv : WalkerEnv :=
  { get_build_info_safe := fun j _ => if j = "root" then .ok c6BuildInfo else .ok {},
    get_build_console := fun _ _ => .ok "quiet console",
    get_test_report := fun _ _ => Option.none,
    ai_analyze_failure := fun _ _ _ => .ok "not json",
    ai_analyze_console := fun _ _ _ _ _ => .ok "not json",
    clone := fun _ => .ok () }


/-! ## jira.py — the issue cross-reference pass -/

/-- One Jira search result entry as `JiraClient.search` returns it. -/
structure Candidate where
  key : String := ""
  summary : String := ""
  description : String := ""
  status : String := ""
  priority : String := ""
  url : String := ""
deriving Repr, DecidableEq

/-- The external collaborators of the Jira enrichment pass: whether the
tracker is configured, the client search (which may raise), and the AI
relevance filter (whose internals may raise into the outer handler). -/
structure JiraEnv where
  jira_enabled : Bool
  search : List String → Except String (List Candidate)
  ai_configured : Bool
  filter_ai : String → String → List Candidate → Except String (List JiraMatch)

/-- `jira._search_safe`: a raising search is caught and yields no
candidates. -/
def search_safe (env : JiraEnv) (kws : List String) : List Candidate :=
  match env.search kws with
  | .ok cs => cs
  | .error _ => []

/-- `jira._collect_product_bug_reports`. -/
def collect_product_bug_reports (failures : List FailureAnalysis) :
    List ProductBugReport :=
  failures.filterMap (fun f =>
    match f.analysis.product_bug_report with
    | .report r => some r
    | _ => Option.none)

/-- Python string comparison `s <= t` (lexicographic by code point),
kernel-computable. -/
def pyLe : List Char → List Char → Bool
  | [], _ => true
  | _ :: _, [] => false
  | a :: as, b :: bs =>
    if a < b then true
    else if b < a then false
    else pyLe as bs

/-- One step of the stable insertion sort behind Python `sorted`. -/
def insertSorted (s : String) : List String → List String
  | [] => [s]
  | t :: ts => if pyLe s.toList t.toList then s :: t :: ts else t :: insertSorted s ts

/-- Python `tuple(sorted(keywords))`: the grouping key. -/
def sortedKey (kws : List String) : List String :=
  kws.foldr insertSorted []

/-- The keys of `keyword_to_reports` in dict insertion order. -/
def groupKeysAux : List ProductBugReport → List (List String) → List (List String)
  | [], acc => acc
  | r :: rs, acc =>
    if r.jira_search_keywords = [] then groupKeysAux rs acc
    else
      let k := sortedKey r.jira_search_keywords
      if k ∈ acc then groupKeysAux rs acc else groupKeysAux rs (acc ++ [k])

/-- Unique sorted keyword sets, in first-appearance order; one tracker
query is issued per entry. -/
def groupKeys (reports : List ProductBugReport) : List (List String) :=
  groupKeysAux reports []

/-- The reports of one keyword group, in order. -/
def groupReports (reports : List ProductBugReport) (k : List String) :
    List ProductBugReport :=
  reports.filter (fun r =>
    decide (r.jira_search_keywords ≠ [] ∧ sortedKey r.jira_search_keywords = k))

/-- The no-AI fallback match for a candidate (score 0.0, all candidates
kept). -/
def candidateToMatch (c : Candidate) : JiraMatch :=
  { key := c.key, summary := c.summary, status := c.status,
    priority := c.priority, url := c.url, score := 0 }

/-- The per-group body of the enrichment loop: skip groups with no
candidates; compute the group's matches (AI filter, or all candidates when
no AI is configured); a raising filter aborts the remaining groups (the
outer handler swallows it, keeping earlier attachments). -/
def attachLoop (env : JiraEnv) (reports : List ProductBugReport) :
    List (List String) → List (List String × List JiraMatch)
  | [] => []
  | k :: ks =>
    let candidates := search_safe env k
    if candidates.isEmpty then attachLoop env reports ks
    else
      let rep := (groupReports reports k).headD {}
      let matchRes :=
        if env.ai_configured then env.filter_ai rep.title rep.description candidates
        else .ok (candidates.map candidateToMatch)
      match matchRes with
      | .error _ => []
      | .ok ms => (k, ms) :: attachLoop env reports ks

/-- Attach a group's matches to one report (`report.jira_matches =
matches` for every report of the group). -/
def updateReport (asg : List (List String × List JiraMatch))
    (r : ProductBugReport) : ProductBugReport :=
  if r.jira_search_keywords = [] then r
  else
    match asg.find? (fun p => p.1 == sortedKey r.jira_search_keywords) with
    | some p => { r with jira_matches := p.2 }
    | Option.none => r

/-- Lift the in-place report mutation to a failure record. -/
def applyAssignments (asg : List (List String × List JiraMatch))
    (f : FailureAnalysis) : FailureAnalysis :=
  match f.analysis.product_bug_report with
  | .report r =>
    { f with analysis := { f.analysis with
        product_bug_report := .report (updateReport asg r) } }
  | _ => f

/-- `jira.enrich_with_jira_matches` (jira.py:335-443), as a pure function
from the failures to the updated failures plus the list of issued tracker
queries (one per unique sorted keyword set). -/
def enrich_with_jira_matches (env : JiraEnv) (failures : List FailureAnalysis) :
    List FailureAnalysis × List (List String) :=
  if !env.jira_enabled then (failures, [])
  else
    let reports := collect_product_bug_reports failures
    if reports.isEmpty then (failures, [])
    else
      let keys := groupKeys reports
      if keys.isEmpty then (failures, [])
      else
        let asg := attachLoop env reports keys
        (failures.map (applyAssignments asg), keys)

def c8Report1 : ProductBugReport :=
  { title := "T1", jira_search_keywords := ["login", "auth"] }
def c8Report2 : ProductBugReport :=
  { title := "T2", jira_search_keywords := ["auth", "login"] }
def c8Fail (r : ProductBugReport) : FailureAnalysis :=
  { test_name := "t", error := "e",
    analysis := { classification := "PRODUCT BUG", product_bug_report := .report r } }
def c8Env : JiraEnv :=
  { jira_enabled := true,
    search := fun _ => .ok [{ key := "PROJ-1", summary := "s" }],
    ai_configured := false,
    filter_ai := fun _ _ _ => .error "boom" }

/-- A disabled-tracker environment. -/
def c8OffEnv : JiraEnv :=
  { jira_enabled := false,
    search := fun _ => .ok [{ key := "PROJ-1", summary := "s" }],
    ai_configured := false,
    filter_ai := fun _ _ _ => .error "boom" }

/-- An enabled environment whose AI relevance filter always raises. -/
def c8FailEnv : JiraEnv :=
  { jira_enabled := true,
    search := fun _ => .ok [{ key := "PROJ-1", summary := "s" }],
    ai_configured := true,
    filter_ai := fun _ _ _ => .error "boom" }


/-! ### Invariants of the extraction loop -/

/-- The Python `seen_indices` set tracks exactly the indices already
appended to `relevant_lines`. -/
def SeenEq (st : ExtractState) : Prop := ∀ j, j ∈ st.seen ↔ j ∈ st.relevant

/-- Loop invariant of `extract_relevant_console_lines` before processing
line `i`: seen = appended; appended indices strictly increase; all are
below `i`; if the previous line was appended so was the one before it; and
the traceback flag implies the previous line was appended. -/
structure ExtractInv (i : Nat) (st : ExtractState) : Prop where
  seen_eq : SeenEq st
  sorted : st.relevant.Pairwise (· < ·)
  bounded : ∀ j ∈ st.relevant, j < i
  gap : 2 ≤ i → (i - 1) ∈ st.relevant → (i - 2) ∈ st.relevant
  tb : st.in_traceback = true → 1 ≤ i ∧ (i - 1) ∈ st.relevant

theorem addIdx_seenEq {st : ExtractState} (h : SeenEq st) (i : Nat) :
    SeenEq (st.addIdx i) := by
  unfold ExtractState.addIdx
  split
  · exact h
  · intro j
    simp only [Finset.mem_insert, List.mem_append, List.mem_singleton, h j]
    tauto

theorem addIdx_mem_iff {st : ExtractState} (h : SeenEq st) (i j : Nat) :
    j ∈ (st.addIdx i).relevant ↔ j ∈ st.relevant ∨ j = i := by
  unfold ExtractState.addIdx
  split
  · rename_i hin
    have hi : i ∈ st.relevant := (h i).1 hin
    constructor
    · exact Or.inl
    · rintro (hj | rfl)
      · exact hj
      · exact hi
  · simp [List.mem_append]

theorem addIdx_mem_self {st : ExtractState} (h : SeenEq st) (i : Nat) :
    i ∈ (st.addIdx i).relevant := by
  unfold ExtractState.addIdx
  split
  · exact (h i).1 (by assumption)
  · simp

theorem addIdx_mem_mono {st : ExtractState} {j : Nat} (hj : j ∈ st.relevant) (i : Nat) :
    j ∈ (st.addIdx i).relevant := by
  unfold ExtractState.addIdx
  split
  · exact hj
  · simp [List.mem_append, hj]

theorem addIdx_tb (st : ExtractState) (i : Nat) :
    (st.addIdx i).in_traceback = st.in_traceback := by
  unfold ExtractState.addIdx
  split <;> rfl

theorem addIdx_sorted {st : ExtractState} (h : SeenEq st)
    (hs : st.relevant.Pairwise (· < ·)) {i : Nat}
    (hb : i ∉ st.relevant → ∀ j ∈ st.relevant, j < i) :
    (st.addIdx i).relevant.Pairwise (· < ·) := by
  unfold ExtractState.addIdx
  split
  · exact hs
  · rename_i hnin
    have hni : i ∉ st.relevant := fun hmem => hnin ((h i).2 hmem)
    rw [List.pairwise_append]
    refine ⟨hs, List.pairwise_singleton _ _, ?_⟩
    intro a ha b hb'
    simp only [List.mem_singleton] at hb'
    subst hb'
    exact hb hni a ha

theorem addIdx_bounded {st : ExtractState} {k : Nat}
    (hb : ∀ j ∈ st.relevant, j < k) {i : Nat} (hik : i < k) :
    ∀ j ∈ (st.addIdx i).relevant, j < k := by
  unfold ExtractState.addIdx
  split
  · exact hb
  · intro j hj
    simp only [List.mem_append, List.mem_singleton] at hj
    rcases hj with hj | rfl
    · exact hb j hj
    · exact hik

theorem foldl_addIdx_seenEq {st : ExtractState} (h : SeenEq st) (l : List Nat) :
    SeenEq (l.foldl ExtractState.addIdx st) := by
  induction l generalizing st with
  | nil => exact h
  | cons a l ih => exact ih (addIdx_seenEq h a)

theorem foldl_addIdx_mem_mono {st : ExtractState} {j : Nat} (hj : j ∈ st.relevant)
    (l : List Nat) : j ∈ (l.foldl ExtractState.addIdx st).relevant := by
  induction l generalizing st with
  | nil => exact hj
  | cons a l ih => exact ih (addIdx_mem_mono hj a)

theorem foldl_addIdx_tb (st : ExtractState) (l : List Nat) :
    (l.foldl ExtractState.addIdx st).in_traceback = st.in_traceback := by
  induction l generalizing st with
  | nil => rfl
  | cons a l ih => rw [List.foldl_cons, ih, addIdx_tb]

/-- The state produced by the error-line branch of the loop (context lines,
then the error line itself) preserves the invariant and records line `i`
and, when `i ≥ 1`, line `i - 1`. -/
theorem errStep_facts {st : ExtractState} {i : Nat} (h : ExtractInv i st) :
    SeenEq (((ctxRange i).foldl ExtractState.addIdx st).addIdx i) ∧
    (((ctxRange i).foldl ExtractState.addIdx st).addIdx i).relevant.Pairwise (· < ·) ∧
    (∀ j ∈ (((ctxRange i).foldl ExtractState.addIdx st).addIdx i).relevant, j < i + 1) ∧
    i ∈ (((ctxRange i).foldl ExtractState.addIdx st).addIdx i).relevant ∧
    (1 ≤ i → i - 1 ∈ (((ctxRange i).foldl ExtractState.addIdx st).addIdx i).relevant) := by
  match i with
  | 0 =>
    have hctx : ctxRange 0 = [] := rfl
    rw [hctx]
    simp only [List.foldl_nil]
    have hb0 : (0 : Nat) ∉ st.relevant → ∀ j ∈ st.relevant, j < 0 :=
      fun _ j hj => absurd (h.bounded j hj) (by omega)
    refine ⟨addIdx_seenEq h.seen_eq 0, addIdx_sorted h.seen_eq h.sorted hb0,
      addIdx_bounded (fun j hj => by have := h.bounded j hj; omega) (by omega),
      addIdx_mem_self h.seen_eq 0, by omega⟩
  | 1 =>
    have hctx : ctxRange 1 = [0] := rfl
    rw [hctx]
    simp only [List.foldl_cons, List.foldl_nil]
    have hb0 : (0 : Nat) ∉ st.relevant → ∀ j ∈ st.relevant, j < 0 := by
      intro h0 j hj
      have := h.bounded j hj
      interval_cases j
      · exact absurd hj h0
    have hseA : SeenEq (st.addIdx 0) := addIdx_seenEq h.seen_eq 0
    have hsA : (st.addIdx 0).relevant.Pairwise (· < ·) :=
      addIdx_sorted h.seen_eq h.sorted hb0
    have hbA : ∀ j ∈ (st.addIdx 0).relevant, j < 1 :=
      addIdx_bounded h.bounded (by omega)
    refine ⟨addIdx_seenEq hseA 1, addIdx_sorted hseA hsA (fun _ => hbA),
      addIdx_bounded (fun j hj => by have := hbA j hj; omega) (by omega),
      addIdx_mem_self hseA 1, ?_⟩
    intro _
    exact addIdx_mem_mono (addIdx_mem_self h.seen_eq 0) 1
  | n + 2 =>
    have hctx : ctxRange (n + 2) = [n, n + 1] := by
      unfold ctxRange
      have h1 : n + 2 - 2 = n := by omega
      rw [h1]
      have h2 : n + 2 - n = 2 := by omega
      rw [h2]
      rfl
    rw [hctx]
    simp only [List.foldl_cons, List.foldl_nil]
    -- stA := st.addIdx n
    have hbn : n ∉ st.relevant → ∀ j ∈ st.relevant, j < n := by
      intro hn j hj
      have hjb := h.bounded j hj
      by_contra hge
      have hj1 : j = n + 1 ∨ j = n := by omega
      rcases hj1 with rfl | rfl
      · exact hn (h.gap (by omega) hj)
      · exact hn hj
    have hseA : SeenEq (st.addIdx n) := addIdx_seenEq h.seen_eq n
    have hsA : (st.addIdx n).relevant.Pairwise (· < ·) :=
      addIdx_sorted h.seen_eq h.sorted hbn
    have hbA : ∀ j ∈ (st.addIdx n).relevant, j < n + 2 :=
      addIdx_bounded h.bounded (by omega)
    have hmemA : ∀ j ∈ (st.addIdx n).relevant, j ∈ st.relevant ∨ j = n :=
      fun j hj => (addIdx_mem_iff h.seen_eq n j).1 hj
    -- stB := stA.addIdx (n+1)
    have hbn1 : (n + 1) ∉ (st.addIdx n).relevant → ∀ j ∈ (st.addIdx n).relevant, j < n + 1 := by
      intro hn1 j hj
      rcases hmemA j hj with hj' | rfl
      · have := h.bounded j hj'
        by_contra hge
        have : j = n + 1 := by omega
        subst this
        exact hn1 hj
      · omega
    have hseB : SeenEq ((st.addIdx n).addIdx (n + 1)) := addIdx_seenEq hseA (n + 1)
    have hsB : ((st.addIdx n).addIdx (n + 1)).relevant.Pairwise (· < ·) :=
      addIdx_sorted hseA hsA hbn1
    have hbB : ∀ j ∈ ((st.addIdx n).addIdx (n + 1)).relevant, j < n + 2 :=
      addIdx_bounded hbA (by omega)
    refine ⟨addIdx_seenEq hseB (n + 2), addIdx_sorted hseB hsB (fun _ => hbB),
      addIdx_bounded (fun j hj => by have := hbB j hj; omega) (by omega),
      addIdx_mem_self hseB (n + 2), ?_⟩
    intro _
    have : n + 2 - 1 = n + 1 := by omega
    rw [this]
    exact addIdx_mem_mono (addIdx_mem_self hseA (n + 1)) (n + 2)

/-- One loop iteration preserves the invariant. -/
theorem processLine_inv (lines : List String) (i : Nat) {st : ExtractState}
    (h : ExtractInv i st) : ExtractInv (i + 1) (processLine lines st i) := by
  unfold processLine
  by_cases hm : errorPatternSearch (lines.getD i "") = true
  · rw [if_pos hm]
    obtain ⟨hse, hs, hb, hmem, hmem1⟩ := errStep_facts h
    refine ⟨hse, hs, hb, ?_, ?_⟩
    · intro h2 _
      have : i + 1 - 2 = i - 1 := by omega
      rw [this]
      exact hmem1 (by omega)
    · intro _
      refine ⟨by omega, ?_⟩
      have : i + 1 - 1 = i := by omega
      rw [this]
      exact hmem
  · rw [if_neg hm]
    by_cases htb : st.in_traceback = true
    · rw [if_pos htb]
      obtain ⟨hi1, hprev⟩ := h.tb htb
      by_cases hind : (startsWithSpaceTab (lines.getD i "") || isBlankLine (lines.getD i "")) = true
      · rw [if_pos hind]
        refine ⟨addIdx_seenEq h.seen_eq i,
          addIdx_sorted h.seen_eq h.sorted (fun _ => h.bounded),
          addIdx_bounded (fun j hj => Nat.lt_succ_of_lt (h.bounded j hj)) (by omega),
          ?_, ?_⟩
        · intro _ _
          have : i + 1 - 2 = i - 1 := by omega
          rw [this]
          exact addIdx_mem_mono hprev i
        · intro _
          refine ⟨by omega, ?_⟩
          have : i + 1 - 1 = i := by omega
          rw [this]
          exact addIdx_mem_self h.seen_eq i
      · rw [if_neg hind]
        refine ⟨h.seen_eq, h.sorted,
          fun j hj => Nat.lt_succ_of_lt (h.bounded j hj), ?_, ?_⟩
        · intro _ hmem'
          have heq : i + 1 - 1 = i := by omega
          rw [heq] at hmem'
          exact absurd (h.bounded i hmem') (lt_irrefl i)
        · intro hcontr
          exact absurd hcontr (by simp)
    · rw [if_neg htb]
      refine ⟨h.seen_eq, h.sorted,
        fun j hj => Nat.lt_succ_of_lt (h.bounded j hj), ?_, ?_⟩
      · intro _ hmem'
        have heq : i + 1 - 1 = i := by omega
        rw [heq] at hmem'
        exact absurd (h.bounded i hmem') (lt_irrefl i)
      · intro hcontr
        exact absurd hcontr htb

/-- The appended-line list only ever grows. -/
theorem processLine_mem_mono (lines : List String) (i : Nat) {st : ExtractState}
    {j : Nat} (hj : j ∈ st.relevant) : j ∈ (processLine lines st i).relevant := by
  unfold processLine
  split
  · exact addIdx_mem_mono (foldl_addIdx_mem_mono hj (ctxRange i)) i
  · split
    · split
      · exact addIdx_mem_mono hj i
      · exact hj
    · exact hj

/-- Processing a line that matches the error pattern appends it (or it was
already recorded). -/
theorem processLine_match_mem (lines : List String) (i : Nat) {st : ExtractState}
    (hse : SeenEq st) (hm : errorPatternSearch (lines.getD i "") = true) :
    i ∈ (processLine lines st i).relevant := by
  unfold processLine
  rw [if_pos hm]
  exact addIdx_mem_self (foldl_addIdx_seenEq hse (ctxRange i)) i

/-- Processing a non-matching line outside a traceback leaves the state
unchanged. -/
theorem processLine_nomatch (lines : List String) (i : Nat) {st : ExtractState}
    (hm : ¬ errorPatternSearch (lines.getD i "") = true)
    (htb : st.in_traceback = false) : processLine lines st i = st := by
  unfold processLine
  rw [if_neg hm, if_neg (by simp [htb])]

theorem extractLoopAt_succ (lines : List String) (m : Nat) :
    extractLoopAt lines (m + 1) = processLine lines (extractLoopAt lines m) m := by
  unfold extractLoopAt
  rw [List.range_succ, List.foldl_append, List.foldl_cons, List.foldl_nil]

theorem extractLoop_eq_at (lines : List String) :
    extractLoop lines = extractLoopAt lines lines.length := rfl

theorem extractInv_init : ExtractInv 0 initExtractState := by
  refine ⟨fun j => by simp [initExtractState], by simp [initExtractState], ?_, ?_, ?_⟩
  · intro j hj
    simp [initExtractState] at hj
  · intro h2
    omega
  · intro h
    simp [initExtractState] at h

theorem extractLoopAt_inv (lines : List String) (m : Nat) :
    ExtractInv m (extractLoopAt lines m) := by
  induction m with
  | zero => exact extractInv_init
  | succ m ih =>
    rw [extractLoopAt_succ]
    exact processLine_inv lines m ih

theorem extractLoopAt_match_mem (lines : List String) {k : Nat}
    (hm : errorPatternSearch (lines.getD k "") = true) :
    ∀ m, k + 1 ≤ m → k ∈ (extractLoopAt lines m).relevant := by
  intro m
  induction m with
  | zero => omega
  | succ m ih =>
    intro hle
    rw [extractLoopAt_succ]
    rcases Nat.lt_or_ge k m with hlt | hge
    · exact processLine_mem_mono lines m (ih (by omega))
    · have : k = m := by omega
      subst this
      exact processLine_match_mem lines k (extractLoopAt_inv lines k).seen_eq hm

theorem extractLoopAt_nomatch (lines : List String)
    (h : ∀ l ∈ lines, errorPatternSearch l = false) (m : Nat) (hm : m ≤ lines.length) :
    extractLoopAt lines m = initExtractState := by
  induction m with
  | zero => rfl
  | succ m ih =>
    rw [extractLoopAt_succ, ih (by omega)]
    have hline : errorPatternSearch (lines.getD m "") = false := by
      have hlt : m < lines.length := by omega
      rw [List.getD_eq_getElem lines "" hlt]
      exact h _ (List.getElem_mem hlt)
    exact processLine_nomatch lines m (by rw [hline]; exact Bool.false_ne_true) rfl

/-- Strictly increasing in-bound indices select a sublist of `l`:
shifting helper for the head. -/
theorem shift_map_getD (a : String) (l' : List String) (idxs : List Nat)
    (h1 : ∀ j ∈ idxs, 1 ≤ j) :
    idxs.map (fun j => (a :: l').getD j "")
      = (idxs.map (· - 1)).map (fun j => l'.getD j "") := by
  rw [List.map_map]
  apply List.map_congr_left
  intro j hj
  have := h1 j hj
  obtain ⟨j', rfl⟩ : ∃ j', j = j' + 1 := ⟨j - 1, by omega⟩
  simp

theorem shift_pairwise (idxs : List Nat) (h1 : ∀ j ∈ idxs, 1 ≤ j)
    (hs : idxs.Pairwise (· < ·)) : (idxs.map (· - 1)).Pairwise (· < ·) := by
  rw [List.pairwise_map]
  refine hs.imp_of_mem ?_
  intro a b ha hb hab
  have := h1 a ha
  omega

/-- Strictly increasing indices below `l.length` select a sublist of `l`. -/
theorem map_getD_sublist :
    ∀ (l : List String) (idxs : List Nat), idxs.Pairwise (· < ·) →
      (∀ i ∈ idxs, i < l.length) →
      (idxs.map (fun i => l.getD i "")).Sublist l := by
  intro l
  induction l with
  | nil =>
    intro idxs _ hb
    cases idxs with
    | nil => simp
    | cons i rest => exact absurd (hb i (by simp)) (by simp)
  | cons a l' ih =>
    intro idxs hs hb
    cases idxs with
    | nil => simp
    | cons i rest =>
      rw [List.pairwise_cons] at hs
      cases i with
      | zero =>
        have h1 : ∀ j ∈ rest, 1 ≤ j := fun j hj => hs.1 j hj
        rw [List.map_cons, shift_map_getD a l' rest h1]
        have hb' : ∀ j ∈ rest.map (· - 1), j < l'.length := by
          intro j hj
          rw [List.mem_map] at hj
          obtain ⟨j', hj', hje⟩ := hj
          have hlt := hb j' (by simp [hj'])
          have hge := h1 j' hj'
          simp only [List.length_cons] at hlt
          omega
        have := ih (rest.map (· - 1)) (shift_pairwise rest h1 hs.2) hb'
        simpa using List.Sublist.cons₂ a this
      | succ n =>
        have h1 : ∀ j ∈ (n + 1) :: rest, 1 ≤ j := by
          intro j hj
          rcases List.mem_cons.1 hj with rfl | hj'
          · omega
          · have := hs.1 j hj'
            omega
        rw [shift_map_getD a l' ((n + 1) :: rest) h1]
        have hb' : ∀ j ∈ ((n + 1) :: rest).map (· - 1), j < l'.length := by
          intro j hj
          rw [List.mem_map] at hj
          obtain ⟨j', hj', hje⟩ := hj
          have hlt := hb j' hj'
          have hge := h1 j' hj'
          simp only [List.length_cons] at hlt
          omega
        have hs' : (((n + 1) :: rest).map (· - 1)).Pairwise (· < ·) := by
          apply shift_pairwise _ h1
          rw [List.pairwise_cons]
          exact hs
        exact List.Sublist.cons a (ih _ hs' hb')

/-- The definition of `extract_relevant_console_lines`, lets unfolded. -/
theorem extract_relevant_console_lines_eq (console : String) :
    extract_relevant_console_lines console
      = if (extractLoop (splitlines console)).relevant ≠ [] then
          String.intercalate "\n"
            ((extractLoop (splitlines console)).relevant.map
              (fun i => (splitlines console).getD i ""))
        else if (splitlines console).length > FALLBACK_TAIL_LINES then
          String.intercalate "\n"
            ((splitlines console).drop ((splitlines console).length - FALLBACK_TAIL_LINES))
        else console := rfl

end JJI

namespace JJI

/-! ## Claim C10 : shape of the extracted console lines -/

/-- C10: if at least one input line matches the error pattern, the output
is the join of a strictly increasing (hence duplicate-free and
order-preserving) selection of input line indices — a sublist of the input
lines; if no line matches, the output is the last 200 lines, or the whole
input unchanged when it has at most 200 lines. -/
theorem extract_relevant_console_lines_spec (console : String) :
    ((∃ l ∈ splitlines console, errorPatternSearch l = true) →
      ∃ idxs : List Nat,
        idxs ≠ [] ∧
        idxs.Pairwise (· < ·) ∧
        (∀ i ∈ idxs, i < (splitlines console).length) ∧
        (idxs.map (fun i => (splitlines console).getD i "")).Sublist (splitlines console) ∧
        extract_relevant_console_lines console
          = String.intercalate "\n" (idxs.map (fun i => (splitlines console).getD i ""))) ∧
    ((∀ l ∈ splitlines console, errorPatternSearch l = false) →
      extract_relevant_console_lines console
        = if (splitlines console).length > FALLBACK_TAIL_LINES then
            String.intercalate "\n"
              ((splitlines console).drop ((splitlines console).length - FALLBACK_TAIL_LINES))
          else console) := by
  constructor
  · rintro ⟨l, hl, hmatch⟩
    obtain ⟨k, hk, hkl⟩ := List.mem_iff_getElem.mp hl
    have hmk : errorPatternSearch ((splitlines console).getD k "") = true := by
      rw [List.getD_eq_getElem (splitlines console) "" hk, hkl]
      exact hmatch
    have hkmem : k ∈ (extractLoop (splitlines console)).relevant := by
      rw [extractLoop_eq_at]
      exact extractLoopAt_match_mem (splitlines console) hmk (splitlines console).length hk
    have inv : ExtractInv (splitlines console).length (extractLoop (splitlines console)) := by
      rw [extractLoop_eq_at]
      exact extractLoopAt_inv (splitlines console) (splitlines console).length
    refine ⟨(extractLoop (splitlines console)).relevant,
      List.ne_nil_of_mem hkmem, inv.sorted, inv.bounded,
      map_getD_sublist _ _ inv.sorted inv.bounded, ?_⟩
    rw [extract_relevant_console_lines_eq, if_pos (List.ne_nil_of_mem hkmem)]
  · intro hall
    have hst : extractLoop (splitlines console) = initExtractState := by
      rw [extractLoop_eq_at]
      exact extractLoopAt_nomatch (splitlines console) hall (splitlines console).length le_rfl
    rw [extract_relevant_console_lines_eq, if_neg (by rw [hst]; simp [initExtractState])]

/-- Witness for C10 at a concrete console with one error line (the matched
branch) — the hypothesis of the first part is discharged at
"setup\nERROR: boom\nrest". -/
theorem extract_relevant_console_lines_spec_witness :
    (∃ l ∈ splitlines "setup\nERROR: boom\nrest", errorPatternSearch l = true) ∧
    (∃ idxs : List Nat,
        idxs ≠ [] ∧
        idxs.Pairwise (· < ·) ∧
        (∀ i ∈ idxs, i < (splitlines "setup\nERROR: boom\nrest").length) ∧
        (idxs.map (fun i => (splitlines "setup\nERROR: boom\nrest").getD i "")).Sublist
          (splitlines "setup\nERROR: boom\nrest") ∧
        extract_relevant_console_lines "setup\nERROR: boom\nrest"
          = String.intercalate "\n"
              (idxs.map (fun i => (splitlines "setup\nERROR: boom\nrest").getD i ""))) :=
  ⟨by decide, (extract_relevant_console_lines_spec "setup\nERROR: boom\nrest").1 (by decide)⟩

end JJI

namespace JJI

/-! ## Claim C5 : the response normalizer's fallback -/

/-- C5 counterexample: on the brace-free raw text "AI backend timed out",
`parse_ai_response` returns the fixed parse-failure dictionary; contrary to
the claim, the raw text does not occur anywhere in the result (in
particular the result is not an UNKNOWN verdict whose narrative is the raw
text verbatim). -/
theorem parse_ai_response_fallback_counterexample :
    parse_ai_response "AI backend timed out" = parseFailureFallback ∧
    Json.mentionsStr (parse_ai_response "AI backend timed out") "AI backend timed out" = false ∧
    parse_ai_response "AI backend timed out" ≠ specUnknownFallback "AI backend timed out" := by
  refine ⟨rfl, rfl, ?_⟩
  intro h
  have h2 : Json.mentionsStr (parse_ai_response "AI backend timed out") "AI backend timed out"
      = Json.mentionsStr (specUnknownFallback "AI backend timed out") "AI backend timed out" := by
    rw [h]
  exact absurd h2 (by decide)

/-- C5 amended: `parse_ai_response` is total (never raises) and staged: it
returns the whole-text JSON decode when that succeeds, else the decode of
the first-brace-to-last-brace span when that succeeds, and otherwise the
fixed dictionary with summary "Failed to parse AI response" and an empty
failures list — the raw text is discarded, not kept as a narrative. -/
theorem parse_ai_response_staged (s : String) :
    (∀ v, jsonLoads s = some v → parse_ai_response s = v) ∧
    (jsonLoads s = Option.none → ∀ sp v, braceSpan s = some sp → jsonLoads sp = some v →
      parse_ai_response s = v) ∧
    (jsonLoads s = Option.none →
      (braceSpan s = Option.none ∨ ∃ sp, braceSpan s = some sp ∧ jsonLoads sp = Option.none) →
      parse_ai_response s = parseFailureFallback) := by
  refine ⟨?_, ?_, ?_⟩
  · intro v hv
    simp [parse_ai_response, hv]
  · intro hnone sp v hsp hv
    simp [parse_ai_response, hnone, hsp, hv]
  · intro hnone hbad
    rcases hbad with hno | ⟨sp, hsp, hspn⟩
    · simp [parse_ai_response, hnone, hno]
    · simp [parse_ai_response, hnone, hsp, hspn]

/-- Witness for C5's amended theorem: on a response wrapping a JSON object
in prose, the whole-text decode fails, the brace-span decode succeeds, and
`parse_ai_response` returns the decoded object. -/
theorem parse_ai_response_staged_witness :
    parse_ai_response "verdict: \x7b\"a\": 1\x7d end" = Json.obj [("a", Json.num 1)] :=
  (parse_ai_response_staged "verdict: \x7b\"a\": 1\x7d end").2.1 rfl
    "\x7b\"a\": 1\x7d" (Json.obj [("a", Json.num 1)]) rfl rfl

end JJI

namespace JJI

/-! ## Claim C9 : mutual exclusivity of `code_fix` and `product_bug_report` -/

/-- C9: constructing an `AnalysisDetail` with both payloads truthy is
rejected with a validation error, and every successfully constructed
verdict has at most one of the two payloads truthy. -/
theorem analysisDetail_mutual_exclusivity
    (d d' : AnalysisDetail) :
    (d.code_fix.truthy → d.product_bug_report.truthy →
      d.validate = .error "code_fix and product_bug_report are mutually exclusive") ∧
    (d.validate = .ok d' →
      ¬(d'.code_fix.truthy ∧ d'.product_bug_report.truthy)) := by
  constructor
  · intro h1 h2
    simp [AnalysisDetail.validate, h1, h2]
  · intro hok
    unfold AnalysisDetail.validate at hok
    split at hok
    · exact absurd hok (by simp)
    · rename_i hne
      cases hok
      exact hne

/-- Witness for C9 at a concrete verdict carrying both a `CodeFix` and a
`ProductBugReport`: the validator rejects it, and a verdict carrying only a
`CodeFix` validates and indeed has at most one payload. -/
theorem analysisDetail_mutual_exclusivity_witness :
    ({ classification := "CODE ISSUE", code_fix := .fix {},
       product_bug_report := .report {} } : AnalysisDetail).validate
      = .error "code_fix and product_bug_report are mutually exclusive" ∧
    ¬(({ classification := "CODE ISSUE", code_fix := .fix {} } : AnalysisDetail).code_fix.truthy ∧
      ({ classification := "CODE ISSUE", code_fix := .fix {} } : AnalysisDetail).product_bug_report.truthy) := by
  refine ⟨(analysisDetail_mutual_exclusivity _ { classification := "CODE ISSUE", code_fix := .fix {} }).1 (by decide) (by decide), ?_⟩
  exact (analysisDetail_mutual_exclusivity { classification := "CODE ISSUE", code_fix := .fix {} } _).2 rfl

end JJI

namespace JJI

/-! ## Executor lemmas -/

theorem countActive_set {ε α : Type} :
    ∀ (cs : List (UTree ε α)) (i : Nat) (c c' : UTree ε α), cs[i]? = some c →
      countActive (cs.set i c') + (if c.status = .active then 1 else 0)
        = countActive cs + (if c'.status = .active then 1 else 0) := by
  intro cs
  induction cs with
  | nil =>
    intro i c c' h
    simp at h
  | cons x xs ih =>
    intro i c c' h
    cases i with
    | zero =>
      simp only [List.getElem?_cons_zero, Option.some.injEq] at h
      subst h
      simp only [List.set_cons_zero]
      unfold countActive
      rw [List.countP_cons, List.countP_cons]
      simp only [decide_eq_true_eq]
      omega
    | succ i =>
      simp only [List.getElem?_cons_succ] at h
      simp only [List.set_cons_succ]
      unfold countActive
      rw [List.countP_cons, List.countP_cons]
      unfold countActive at ih
      have := ih i c c' h
      omega

theorem batchBounded_inv {ε α : Type} {s : UStatus} {lim : Nat}
    {cs : List (UTree ε α)} (h : BatchBounded (.batch s lim cs)) :
    countActive cs ≤ lim ∧ ∀ c ∈ cs, BatchBounded c := by
  cases h with
  | batch _ _ _ hcnt hall => exact ⟨hcnt, hall⟩

theorem batchBounded_restatus {ε α : Type} {s s' : UStatus} {lim : Nat}
    {cs : List (UTree ε α)} (h : BatchBounded (.batch s lim cs)) :
    BatchBounded (.batch s' lim cs) := by
  rcases batchBounded_inv h with ⟨hcnt, hall⟩
  exact .batch _ _ _ hcnt hall

theorem batchBounded_set {ε α : Type} {cs : List (UTree ε α)} {i : Nat}
    {c' : UTree ε α} (hall : ∀ c ∈ cs, BatchBounded c) (hc' : BatchBounded c') :
    ∀ c ∈ cs.set i c', BatchBounded c := by
  intro c hc
  rcases List.mem_or_eq_of_mem_set hc with hmem | rfl
  · exact hall c hmem
  · exact hc'

theorem step_status {ε α : Type} {c c' : UTree ε α} (h : Step c c') :
    c.status = .active ∧ c'.status = .active := by
  cases h <;> exact ⟨rfl, rfl⟩

theorem mem_of_getElem? {β : Type} {l : List β} {i : Nat} {a : β}
    (h : l[i]? = some a) : a ∈ l := by
  induction l generalizing i with
  | nil => simp at h
  | cons x xs ih =>
    cases i with
    | zero =>
      simp only [List.getElem?_cons_zero, Option.some.injEq] at h
      subst h
      exact List.mem_cons_self x xs
    | succ i =>
      simp only [List.getElem?_cons_succ] at h
      exact List.mem_cons_of_mem x (ih h)

/-- `countActive` of a one-position update, as a rewrite. -/
theorem countActive_set_eq {ε α : Type} {cs : List (UTree ε α)} {i : Nat}
    {c c' : UTree ε α} (hi : cs[i]? = some c) :
    countActive (cs.set i c')
      = countActive cs + (if c'.status = .active then 1 else 0)
        - (if c.status = .active then 1 else 0) := by
  have h1 := countActive_set cs i c c' hi
  by_cases hc : c.status = .active
  · have hpos : 0 < countActive cs := by
      unfold countActive
      rw [List.countP_pos_iff]
      exact ⟨c, mem_of_getElem? hi, by simp [hc]⟩
    simp only [hc, if_pos] at h1 ⊢
    omega
  · simp only [hc, if_neg, if_false] at h1 ⊢
    omega

/-- One scheduler step preserves the per-invocation semaphore bound. -/
theorem step_batchBounded {ε α : Type} {t t' : UTree ε α}
    (h : Step t t') (hb : BatchBounded t) : BatchBounded t' := by
  induction h with
  | startLeaf hi hlt =>
    rcases batchBounded_inv hb with ⟨hcnt, hall⟩
    refine .batch _ _ _ ?_ (batchBounded_set hall (.leaf _ _))
    rw [countActive_set_eq hi]
    simp only [UTree.status]
    simp
    omega
  | startBatch hi hlt =>
    rcases batchBounded_inv hb with ⟨hcnt, hall⟩
    refine .batch _ _ _ ?_ (batchBounded_set hall ?_)
    · rw [countActive_set_eq hi]
      simp only [UTree.status]
      simp
      omega
    · exact batchBounded_restatus (hall _ (mem_of_getElem? hi))
  | finishLeaf hi =>
    rcases batchBounded_inv hb with ⟨hcnt, hall⟩
    refine .batch _ _ _ ?_ (batchBounded_set hall (.leaf _ _))
    rw [countActive_set_eq hi]
    simp only [UTree.status]
    simp
    omega
  | finishBatch hi _ =>
    rcases batchBounded_inv hb with ⟨hcnt, hall⟩
    refine .batch _ _ _ ?_ (batchBounded_set hall ?_)
    · rw [countActive_set_eq hi]
      simp only [UTree.status]
      simp
      omega
    · exact batchBounded_restatus (hall _ (mem_of_getElem? hi))
  | inner hi hstep ih =>
    rcases batchBounded_inv hb with ⟨hcnt, hall⟩
    refine .batch _ _ _ ?_ (batchBounded_set hall (ih (hall _ (mem_of_getElem? hi))))
    rw [countActive_set_eq hi]
    rcases step_status hstep with ⟨hs1, hs2⟩
    rw [hs1, hs2]
    simp
    omega

end JJI

namespace JJI

/-- Reachability preserves the per-invocation semaphore bound. -/
theorem steps_batchBounded {ε α : Type} {t t' : UTree ε α}
    (h : Steps t t') (hb : BatchBounded t) : BatchBounded t' := by
  induction h with
  | refl => exact hb
  | tail _ hstep ih => exact step_batchBounded hstep ih

/-- A batch of fresh atomic units satisfies the bound. -/
theorem leafBatch_batchBounded {ε α : Type} (outs : List (Except ε α)) (lim : Nat) :
    BatchBounded (leafBatch outs lim) := by
  refine .batch _ _ _ ?_ ?_
  · have : countActive (outs.map (fun o => UTree.leaf .pending o)) = 0 := by
      unfold countActive
      rw [List.countP_eq_zero]
      intro c hc
      rw [List.mem_map] at hc
      obtain ⟨o, _, rfl⟩ := hc
      simp [UTree.status]
    rw [this]
    omega
  · intro c hc
    rw [List.mem_map] at hc
    obtain ⟨o, _, rfl⟩ := hc
    exact .leaf _ _

end JJI

namespace JJI

/-! ## Claim C2 : one shared semaphore across the whole run? -/

/-- C2 counterexample: `run_parallel_with_limit` builds a **fresh**
semaphore per invocation (analyzer.py:49), so nested fan-outs do not share
a budget.  From a pipeline with two recursive child units over a cap of 2,
each fanning out to two AI-call leaves through its own fresh semaphore, the
scheduler reaches a state in which all four leaves execute at once — twice
the configured cap — even though every single batch respects its own
semaphore. -/
theorem run_parallel_fresh_semaphore_counterexample :
    Steps nestedTwoByTwo overloadedState ∧
    BatchBounded overloadedState ∧
    runningLeaves overloadedState = 4 ∧
    2 < runningLeaves overloadedState := by
  refine ⟨?_, ?_, rfl, by decide⟩
  · refine Relation.ReflTransGen.head (Step.startBatch (i := 0) rfl (by decide)) ?_
    refine Relation.ReflTransGen.head (Step.startBatch (i := 1) rfl (by decide)) ?_
    refine Relation.ReflTransGen.head (Step.inner (i := 0) rfl
      (Step.startLeaf (i := 0) rfl (by decide))) ?_
    refine Relation.ReflTransGen.head (Step.inner (i := 0) rfl
      (Step.startLeaf (i := 1) rfl (by decide))) ?_
    refine Relation.ReflTransGen.head (Step.inner (i := 1) rfl
      (Step.startLeaf (i := 0) rfl (by decide))) ?_
    refine Relation.ReflTransGen.head (Step.inner (i := 1) rfl
      (Step.startLeaf (i := 1) rfl (by decide))) ?_
    exact Relation.ReflTransGen.refl
  · refine .batch _ _ _ (by decide) ?_
    intro c hc
    simp only [overloadedState, List.mem_cons, List.not_mem_nil, or_false] at hc
    rcases hc with rfl | rfl
    · refine .batch _ _ _ (by decide) ?_
      intro g hg
      simp only [List.mem_cons, List.not_mem_nil, or_false] at hg
      rcases hg with rfl | rfl <;> exact .leaf _ _
    · refine .batch _ _ _ (by decide) ?_
      intro g hg
      simp only [List.mem_cons, List.not_mem_nil, or_false] at hg
      rcases hg with rfl | rfl <;> exact .leaf _ _

/-- C2 amended: each `run_parallel_with_limit` invocation bounds only its
own batch — in every state reachable from a configuration whose batches
all satisfy their own semaphore bound (in particular from a fresh batch of
atomic units, `leafBatch_batchBounded`), every batch still has at most its
own `limit` children holding permits concurrently.  No bound relates
*different* invocations: the counterexample above shows nested fresh
semaphores let total concurrency exceed the cap. -/
theorem run_parallel_per_invocation_bound {ε α : Type} {t t' : UTree ε α}
    (hb : BatchBounded t) (h : Steps t t') : BatchBounded t' :=
  steps_batchBounded h hb

/-- Witness for the amended C2 theorem: a fresh two-unit batch with cap 10,
after one scheduling step, still satisfies its own bound. -/
theorem run_parallel_per_invocation_bound_witness :
    BatchBounded (.batch .active MAX_CONCURRENT_AI_CALLS
      [UTree.leaf (ε := String) (α := Nat) .active (.ok 7),
       .leaf .pending (.error "boom")]) :=
  run_parallel_per_invocation_bound
    (leafBatch_batchBounded [Except.ok 7, Except.error "boom"] MAX_CONCURRENT_AI_CALLS)
    (Relation.ReflTransGen.single (Step.startLeaf (i := 0) rfl (by decide)))

end JJI

namespace JJI

/-! ## Order preservation and failure isolation of one batch -/

theorem zipWith_getElem?_some {σ τ ρ : Type} (f : σ → τ → ρ) :
    ∀ (l1 : List σ) (l2 : List τ) (i : Nat) (x : ρ),
      (List.zipWith f l1 l2)[i]? = some x →
      ∃ a b, l1[i]? = some a ∧ l2[i]? = some b ∧ x = f a b := by
  intro l1
  induction l1 with
  | nil =>
    intro l2 i x h
    simp at h
  | cons a l1 ih =>
    intro l2 i x h
    cases l2 with
    | nil => simp at h
    | cons b l2 =>
      cases i with
      | zero =>
        simp only [List.zipWith_cons_cons, List.getElem?_cons_zero, Option.some.injEq] at h
        exact ⟨a, b, by simp, by simp, h.symm⟩
      | succ i =>
        simp only [List.zipWith_cons_cons, List.getElem?_cons_succ] at h
        obtain ⟨a', b', h1, h2, h3⟩ := ih l2 i x h
        exact ⟨a', b', by simpa using h1, by simpa using h2, h3⟩

theorem zipWith_getElem?_pos {σ τ ρ : Type} (f : σ → τ → ρ) :
    ∀ (l1 : List σ) (l2 : List τ) (i : Nat) (a : σ) (b : τ),
      l1[i]? = some a → l2[i]? = some b →
      (List.zipWith f l1 l2)[i]? = some (f a b) := by
  intro l1
  induction l1 with
  | nil =>
    intro l2 i a b h1 _
    simp at h1
  | cons x l1 ih =>
    intro l2 i a b h1 h2
    cases l2 with
    | nil => simp at h2
    | cons y l2 =>
      cases i with
      | zero =>
        simp only [List.getElem?_cons_zero, Option.some.injEq] at h1 h2
        subst h1
        subst h2
        simp [List.zipWith_cons_cons]
      | succ i =>
        simp only [List.getElem?_cons_succ] at h1 h2
        simp only [List.zipWith_cons_cons, List.getElem?_cons_succ]
        exact ih l2 i a b h1 h2

theorem zipWith_set {σ τ ρ : Type} (f : σ → τ → ρ) :
    ∀ (l1 : List σ) (l2 : List τ) (i : Nat) (a : σ) (b : τ), l2[i]? = some b →
      (List.zipWith f l1 l2).set i (f a b) = List.zipWith f (l1.set i a) l2 := by
  intro l1
  induction l1 with
  | nil =>
    intro l2 i a b _
    simp
  | cons x l1 ih =>
    intro l2 i a b hb
    cases l2 with
    | nil => simp at hb
    | cons y l2 =>
      cases i with
      | zero =>
        simp only [List.getElem?_cons_zero, Option.some.injEq] at hb
        subst hb
        simp [List.zipWith_cons_cons]
      | succ i =>
        simp only [List.getElem?_cons_succ] at hb
        simp only [List.zipWith_cons_cons, List.set_cons_succ]
        rw [ih l2 i a b hb]

/-- A scheduler step preserves the single-batch shape: same children, same
order, same outcomes; only statuses change. -/
theorem step_leafShape {ε α : Type} {outs : List (Except ε α)} {lim : Nat}
    {t t' : UTree ε α} (h : Step t t') (hs : LeafShape outs lim t) :
    LeafShape outs lim t' := by
  obtain ⟨sts, hlen, rfl⟩ := hs
  cases h with
  | startLeaf hi hlt =>
    rename_i i out
    obtain ⟨a, b, ha, hb, hab⟩ := zipWith_getElem?_some _ _ _ _ _ hi
    injection hab with h1 h2
    subst h2
    refine ⟨sts.set i .active, by rw [List.length_set]; exact hlen, ?_⟩
    exact congrArg (UTree.batch .active lim)
      (zipWith_set (fun s o => UTree.leaf s o) sts outs i UStatus.active out hb)
  | finishLeaf hi =>
    rename_i i out
    obtain ⟨a, b, ha, hb, hab⟩ := zipWith_getElem?_some _ _ _ _ _ hi
    injection hab with h1 h2
    subst h2
    refine ⟨sts.set i .done, by rw [List.length_set]; exact hlen, ?_⟩
    exact congrArg (UTree.batch .active lim)
      (zipWith_set (fun s o => UTree.leaf s o) sts outs i UStatus.done out hb)
  | startBatch hi hlt =>
    obtain ⟨a, b, _, _, hab⟩ := zipWith_getElem?_some _ _ _ _ _ hi
    exact absurd hab (by intro hc; cases hc)
  | finishBatch hi _ =>
    obtain ⟨a, b, _, _, hab⟩ := zipWith_getElem?_some _ _ _ _ _ hi
    exact absurd hab (by intro hc; cases hc)
  | inner hi hstep =>
    obtain ⟨a, b, _, _, hab⟩ := zipWith_getElem?_some _ _ _ _ _ hi
    subst hab
    cases hstep

theorem steps_leafShape {ε α : Type} {outs : List (Except ε α)} {lim : Nat}
    {t t' : UTree ε α} (h : Steps t t') (hs : LeafShape outs lim t) :
    LeafShape outs lim t' := by
  induction h with
  | refl => exact hs
  | tail _ hstep ih => exact step_leafShape hstep ih

theorem zip_replicate_leaf {ε α : Type} (s : UStatus) :
    ∀ (outs : List (Except ε α)),
      List.zipWith (fun s o => UTree.leaf s o) (List.replicate outs.length s) outs
        = outs.map (fun o => UTree.leaf s o) := by
  intro outs
  induction outs with
  | nil => rfl
  | cons o outs ih =>
    simp only [List.length_cons, List.replicate_succ, List.zipWith_cons_cons, List.map_cons]
    rw [ih]

theorem leafShape_init {ε α : Type} (outs : List (Except ε α)) (lim : Nat) :
    LeafShape outs lim (leafBatch outs lim) :=
  ⟨List.replicate outs.length .pending, List.length_replicate _ _,
    congrArg (UTree.batch .active lim) (zip_replicate_leaf .pending outs).symm⟩

theorem mapM_zipWith_leaf {ε α : Type} :
    ∀ (sts : List UStatus) (outs : List (Except ε α)), sts.length = outs.length →
      (List.zipWith (fun s o => UTree.leaf s o) sts outs).mapM
        (fun c => match c with
          | .leaf _ out => some out
          | .batch _ _ _ => Option.none) = some outs := by
  intro sts
  induction sts with
  | nil =>
    intro outs hlen
    cases outs with
    | nil => rfl
    | cons o outs => simp at hlen
  | cons s sts ih =>
    intro outs hlen
    cases outs with
    | nil => simp at hlen
    | cons o outs =>
      simp only [List.length_cons, Nat.succ.injEq] at hlen
      simp only [List.zipWith_cons_cons, List.mapM_cons, ih outs hlen]
      rfl

theorem resultsOf_leafShape {ε α : Type} {outs : List (Except ε α)} {lim : Nat}
    {t : UTree ε α} (hs : LeafShape outs lim t) : resultsOf t = some outs := by
  obtain ⟨sts, hlen, rfl⟩ := hs
  unfold resultsOf
  exact mapM_zipWith_leaf sts outs hlen

end JJI

namespace JJI

/-! ## A completing schedule for one batch -/

theorem rep_append_get_pending (k m : Nat) :
    (List.replicate k UStatus.done ++ List.replicate (m + 1) UStatus.pending)[k]?
      = some UStatus.pending := by
  induction k with
  | zero => simp [List.replicate_succ]
  | succ k ih => simpa [List.replicate_succ] using ih

theorem rep_append_get_active (k m : Nat) :
    (List.replicate k UStatus.done ++ (UStatus.active :: List.replicate m UStatus.pending))[k]?
      = some UStatus.active := by
  induction k with
  | zero => simp
  | succ k ih =>
    simp only [List.replicate_succ, List.cons_append, List.getElem?_cons_succ]
    exact ih

theorem set_done_pending (k m : Nat) :
    (List.replicate k UStatus.done ++ List.replicate (m + 1) UStatus.pending).set k UStatus.active
      = List.replicate k UStatus.done ++ (UStatus.active :: List.replicate m UStatus.pending) := by
  induction k with
  | zero => simp [List.replicate_succ]
  | succ k ih =>
    simp only [List.replicate_succ, List.cons_append, List.set_cons_succ]
    simp only [List.replicate_succ] at ih
    rw [ih]

theorem set_active_done (k m : Nat) :
    (List.replicate k UStatus.done
        ++ (UStatus.active :: List.replicate m UStatus.pending)).set k UStatus.done
      = List.replicate (k + 1) UStatus.done ++ List.replicate m UStatus.pending := by
  induction k with
  | zero => simp [List.replicate_succ]
  | succ k ih =>
    simp only [List.replicate_succ, List.cons_append, List.set_cons_succ]
    rw [ih]
    simp [List.replicate_succ]

theorem zip_leaf_status_mem {ε α : Type} :
    ∀ (sts : List UStatus) (outs : List (Except ε α)) (c : UTree ε α),
      c ∈ List.zipWith (fun s o => UTree.leaf s o) sts outs → c.status ∈ sts := by
  intro sts
  induction sts with
  | nil =>
    intro outs c hc
    simp at hc
  | cons s sts ih =>
    intro outs c hc
    cases outs with
    | nil => simp at hc
    | cons o outs =>
      simp only [List.zipWith_cons_cons, List.mem_cons] at hc
      rcases hc with rfl | hc
      · exact List.mem_cons_self _ _
      · exact List.mem_cons_of_mem _ (ih outs c hc)

theorem countActive_no_active {ε α : Type} (cs : List (UTree ε α))
    (h : ∀ c ∈ cs, ¬ c.status = .active) : countActive cs = 0 := by
  unfold countActive
  rw [List.countP_eq_zero]
  intro c hc
  simp [h c hc]

/-- The sequential schedule: run the units one at a time, in index order;
after stage `k` the first `k` units are done and the rest pending. -/
theorem steps_leafBatch_progress {ε α : Type} (outs : List (Except ε α)) (lim : Nat)
    (hlim : 0 < lim) :
    ∀ k, k ≤ outs.length →
      Steps (leafBatch outs lim)
        (.batch .active lim (List.zipWith (fun s o => UTree.leaf s o)
          (List.replicate k UStatus.done
            ++ List.replicate (outs.length - k) UStatus.pending) outs)) := by
  intro k
  induction k with
  | zero =>
    intro _
    have h0 : (List.replicate 0 UStatus.done
        ++ List.replicate (outs.length - 0) UStatus.pending) = List.replicate outs.length UStatus.pending := by
      simp
    rw [h0, zip_replicate_leaf]
    exact Relation.ReflTransGen.refl
  | succ k ih =>
    intro hk1
    have hk : k ≤ outs.length := by omega
    have hklt : k < outs.length := by omega
    obtain ⟨m, hm⟩ : ∃ m, outs.length - k = m + 1 := ⟨outs.length - k - 1, by omega⟩
    have hm2 : outs.length - (k + 1) = m := by omega
    have ho : outs[k]? = some (outs.get ⟨k, hklt⟩) := by
      rw [List.getElem?_eq_getElem hklt]
      rfl
    -- names for the three status lists of this stage
    have hgetp := rep_append_get_pending k m
    have hgeta := rep_append_get_active k m
    -- step A: unit k acquires a permit
    have hstepA : Step
        (.batch .active lim (List.zipWith (fun s o => UTree.leaf s o)
          (List.replicate k UStatus.done ++ List.replicate (m + 1) UStatus.pending) outs))
        (.batch .active lim (List.zipWith (fun s o => UTree.leaf s o)
          (List.replicate k UStatus.done
            ++ (UStatus.active :: List.replicate m UStatus.pending)) outs)) := by
      have hsrc := zipWith_getElem?_pos (fun s o => UTree.leaf s o) _ outs k _ _ hgetp ho
      have hz : countActive (List.zipWith (fun s o => UTree.leaf s o)
          (List.replicate k UStatus.done ++ List.replicate (m + 1) UStatus.pending) outs) = 0 := by
        apply countActive_no_active
        intro c hc
        have := zip_leaf_status_mem _ outs c hc
        rcases List.mem_append.1 this with hmem | hmem
        · rw [List.eq_of_mem_replicate hmem]
          intro hcontr
          cases hcontr
        · rw [List.eq_of_mem_replicate hmem]
          intro hcontr
          cases hcontr
      have h1 := @Step.startLeaf ε α lim _ k _ hsrc (by rw [hz]; omega)
      have hset := zipWith_set (fun s o => UTree.leaf s o)
        (List.replicate k UStatus.done ++ List.replicate (m + 1) UStatus.pending) outs k
        UStatus.active (outs.get ⟨k, hklt⟩) ho
      rw [hset, set_done_pending k m] at h1
      exact h1
    -- step B: unit k finishes (value or exception) and releases the permit
    have hstepB : Step
        (.batch .active lim (List.zipWith (fun s o => UTree.leaf s o)
          (List.replicate k UStatus.done
            ++ (UStatus.active :: List.replicate m UStatus.pending)) outs))
        (.batch .active lim (List.zipWith (fun s o => UTree.leaf s o)
          (List.replicate (k + 1) UStatus.done ++ List.replicate m UStatus.pending) outs)) := by
      have hsrc := zipWith_getElem?_pos (fun s o => UTree.leaf s o) _ outs k _ _ hgeta ho
      have h1 := @Step.finishLeaf ε α lim _ k _ hsrc
      have hset := zipWith_set (fun s o => UTree.leaf s o)
        (List.replicate k UStatus.done ++ (UStatus.active :: List.replicate m UStatus.pending))
        outs k UStatus.done (outs.get ⟨k, hklt⟩) ho
      rw [hset, set_active_done k m] at h1
      exact h1
    have hchain := Relation.ReflTransGen.tail (Relation.ReflTransGen.tail (hm ▸ ih hk) hstepA) hstepB
    rw [hm2]
    exact hchain

theorem doneLeafBatch_allDone {ε α : Type} (outs : List (Except ε α)) (lim : Nat) :
    AllDone (doneLeafBatch outs lim) := by
  intro c hc
  rw [List.mem_map] at hc
  obtain ⟨o, _, rfl⟩ := hc
  rfl

theorem steps_leafBatch_done {ε α : Type} (outs : List (Except ε α)) (lim : Nat)
    (hlim : 0 < lim) : Steps (leafBatch outs lim) (doneLeafBatch outs lim) := by
  have h := steps_leafBatch_progress outs lim hlim outs.length le_rfl
  have he : (List.replicate outs.length UStatus.done
      ++ List.replicate (outs.length - outs.length) UStatus.pending)
        = List.replicate outs.length UStatus.done := by
    simp
  rw [he, zip_replicate_leaf] at h
  exact h

end JJI

namespace JJI

/-! ## Claim C1 : order preservation and failure isolation -/

/-- C1: for any list of unit outcomes and any positive limit, (a) every
state the scheduler can reach from a fresh `run_parallel_with_limit` batch
still gathers to exactly one entry per unit, in input order, each entry
being that unit's own value-or-raised-exception (so one unit's exception
never perturbs another unit's entry and never escapes the batch), and (b)
a completing schedule exists, ending all-done with exactly that result
list. -/
theorem run_parallel_with_limit_spec {ε α : Type} (outs : List (Except ε α))
    (lim : Nat) (hlim : 0 < lim) :
    (∀ t', Steps (leafBatch outs lim) t' → resultsOf t' = some outs) ∧
    (Steps (leafBatch outs lim) (doneLeafBatch outs lim) ∧
      AllDone (doneLeafBatch outs lim) ∧
      resultsOf (doneLeafBatch outs lim) = some outs) := by
  refine ⟨?_, steps_leafBatch_done outs lim hlim, doneLeafBatch_allDone outs lim, ?_⟩
  · intro t' h
    exact resultsOf_leafShape (steps_leafShape h (leafShape_init outs lim))
  · have : LeafShape outs lim (doneLeafBatch outs lim) :=
      ⟨List.replicate outs.length .done, List.length_replicate _ _,
        congrArg (UTree.batch .active lim) (zip_replicate_leaf .done outs).symm⟩
    exact resultsOf_leafShape this

/-- Witness for C1: a three-unit batch (the middle unit raises) under limit
2 — every reachable state gathers to `[ok 1, error "boom", ok 3]`, and the
batch completes with exactly that list. -/
theorem run_parallel_with_limit_spec_witness :
    (0 < 2) ∧
    ((∀ t', Steps (leafBatch [Except.ok 1, Except.error "boom", Except.ok 3] 2) t' →
        resultsOf t' = some [Except.ok 1, Except.error "boom", Except.ok 3]) ∧
      (Steps (leafBatch ([Except.ok 1, Except.error "boom", Except.ok 3] : List (Except String Nat)) 2)
          (doneLeafBatch [Except.ok 1, Except.error "boom", Except.ok 3] 2) ∧
        AllDone (doneLeafBatch ([Except.ok 1, Except.error "boom", Except.ok 3] : List (Except String Nat)) 2) ∧
        resultsOf (doneLeafBatch ([Except.ok 1, Except.error "boom", Except.ok 3] : List (Except String Nat)) 2)
          = some [Except.ok 1, Except.error "boom", Except.ok 3])) :=
  ⟨by decide, run_parallel_with_limit_spec [Except.ok 1, Except.error "boom", Except.ok 3] 2 (by decide)⟩

end JJI

namespace JJI

/-! ## Walker lemmas -/

theorem nodeDepthList_le (n : Nat) :
    ∀ cs : List ChildJobAnalysis, (∀ c ∈ cs, nodeDepth c ≤ n) →
      nodeDepthList cs ≤ n + 1 := by
  intro cs
  induction cs with
  | nil =>
    intro _
    simp [nodeDepthList]
  | cons c cs ih =>
    intro h
    rw [nodeDepthList]
    have h1 := h c (by simp)
    have h2 := ih (fun d hd => h d (by simp [hd]))
    omega

/-- The fuel bounds the nesting depth of the produced tree. -/
theorem analyze_child_job_fuel_depth (env : WalkerEnv) (base : String) :
    ∀ (fuel : Nat) (job_name : String) (build_number : Int)
      (depth max_depth : Nat) (repo_path : Option Unit),
      nodeDepth (analyze_child_job_fuel env base fuel job_name build_number
        depth max_depth repo_path).1 ≤ fuel := by
  intro fuel
  induction fuel with
  | zero =>
    intro job num depth maxd repo
    rw [analyze_child_job_fuel]
    split
    · simp [nodeDepth, nodeDepthList]
    · simp [nodeDepth, nodeDepthList]
  | succ fuel ih =>
    intro job num depth maxd repo
    rw [analyze_child_job_fuel]
    dsimp only
    repeat' split
    all_goals try simp [nodeDepth, nodeDepthList]
    all_goals refine nodeDepthList_le fuel _ ?_
    all_goals intro c hc
    all_goals rw [List.mem_map] at hc
    all_goals obtain ⟨p, hp, hpe⟩ := hc
    all_goals rw [← hpe]
    all_goals exact ih p.1 p.2 (depth + 1) maxd repo

end JJI

namespace JJI

/-! ## Claim C3 : the depth guard -/

/-- C3: at `depth ≥ max_depth` the walker returns, before any fetch or
recursion (the call log is empty), a terminal node carrying the max-depth
note and no failures or children; and since each recursive call passes
`depth + 1`, the nesting depth of the tree produced at `depth` never
exceeds `max_depth - depth`, however deep or cyclic the upstream data. -/
theorem analyze_child_job_depth_guard (env : WalkerEnv) (base job_name : String)
    (build_number : Int) (depth max_depth : Nat) (repo_path : Option Unit) :
    (max_depth ≤ depth →
      analyze_child_job env base job_name build_number depth max_depth repo_path
        = (.mk job_name build_number (jenkinsBuildUrl base job_name build_number)
            Option.none [] [] (some maxDepthNote), [])) ∧
    nodeDepth (analyze_child_job env base job_name build_number depth
      max_depth repo_path).1 ≤ max_depth - depth := by
  constructor
  · intro h
    rw [analyze_child_job]
    cases h2 : max_depth - depth with
    | zero =>
      rw [analyze_child_job_fuel]
      rw [if_pos h]
    | succ m =>
      rw [analyze_child_job_fuel]
      rw [if_pos h]
  · exact analyze_child_job_fuel_depth env base (max_depth - depth)
      job_name build_number depth max_depth repo_path

/-- Witness for C3 at `depth = max_depth = 3` against a concrete
environment: the result is the terminal max-depth node with an empty call
log, and the depth bound holds. -/
theorem analyze_child_job_depth_guard_witness :
    ((3 : Nat) ≤ 3 ∧
      analyze_child_job trivialWalkerEnv "http://jenkins" "deep-job" 9 3 3 Option.none
        = (.mk "deep-job" 9 (jenkinsBuildUrl "http://jenkins" "deep-job" 9)
            Option.none [] [] (some maxDepthNote), [])) ∧
    nodeDepth (analyze_child_job trivialWalkerEnv "http://jenkins" "deep-job" 9 3 3
      Option.none).1 ≤ 3 - 3 :=
  ⟨⟨le_refl 3,
    (analyze_child_job_depth_guard trivialWalkerEnv "http://jenkins" "deep-job" 9 3 3
      Option.none).1 (le_refl 3)⟩,
   (analyze_child_job_depth_guard trivialWalkerEnv "http://jenkins" "deep-job" 9 3 3
      Option.none).2⟩

end JJI

namespace JJI

theorem analyze_single_log (env : WalkerEnv) (tf : TestFailure) (ctx : String)
    (repo : Option Unit) :
    (analyze_single_test_failure env tf ctx repo).2 = [.aiCall tf.test_name] := by
  unfold analyze_single_test_failure
  split
  · rfl
  · dsimp only
    split <;> rfl

theorem countAICalls_append (a b : List CallEvent) :
    countAICalls (a ++ b) = countAICalls a + countAICalls b := by
  unfold countAICalls
  exact List.countP_append _ _ _

theorem countAICalls_per_test (env : WalkerEnv) (ctx : String) (repo : Option Unit) :
    ∀ fs : List TestFailure,
      countAICalls ((fs.map (fun tf => analyze_single_test_failure env tf ctx repo)).flatMap
        (·.2)) = fs.length := by
  intro fs
  induction fs with
  | nil => rfl
  | cons tf fs ih =>
    simp only [List.map_cons, List.flatMap_cons]
    rw [countAICalls_append, analyze_single_log, ih]
    have h1 : countAICalls [CallEvent.aiCall tf.test_name] = 1 := rfl
    rw [h1, List.length_cons]
    omega

/-- For a leaf build (no failed children detected) whose structured test
report yields failures, the walker dispatches exactly one backend call per
failing test — no grouping — and produces one verdict per failing test, in
report order, each from its own dedicated call. -/
theorem analyze_leaf_per_failure_calls (env : WalkerEnv) (base job_name : String)
    (build_number : Int) (depth max_depth : Nat) (repo_path : Option Unit)
    (bi : BuildInfo) (co : String) (tr : TestReport)
    (hd : depth < max_depth)
    (hbi : env.get_build_info_safe job_name build_number = .ok bi)
    (hco : env.get_build_console job_name build_number = .ok co)
    (hmc : extract_failed_child_jobs bi = [])
    (hcc : extract_failed_child_jobs_from_console co = [])
    (htr : env.get_test_report job_name build_number = some tr)
    (hne : extract_failures_from_test_report tr ≠ []) :
    countAICalls (analyze_child_job env base job_name build_number depth
        max_depth repo_path).2
      = (extract_failures_from_test_report tr).length ∧
    (analyze_child_job env base job_name build_number depth max_depth repo_path).1.failures
      = (extract_failures_from_test_report tr).map
          (fun tf => (analyze_single_test_failure env tf
            (extract_relevant_console_lines co) repo_path).1) := by
  obtain ⟨m, hm⟩ : ∃ m, max_depth - depth = m + 1 := ⟨max_depth - depth - 1, by omega⟩
  rw [analyze_child_job, hm, analyze_child_job_fuel]
  rw [if_neg (by omega), hbi, hco]
  dsimp only
  have hdet : detect_failed_children bi co = [] := by
    unfold detect_failed_children
    rw [hmc]
    simp [hcc]
  rw [hdet]
  simp only [List.isEmpty_nil, if_true, htr]
  rw [if_neg (show ¬((extract_failures_from_test_report tr).isEmpty = true) by
    simpa [List.isEmpty_iff] using hne)]
  constructor
  · rw [countAICalls_append, countAICalls_per_test]
    have h0 : countAICalls
        ([CallEvent.buildInfo job_name build_number, CallEvent.console job_name build_number]
          ++ [CallEvent.testReport job_name build_number]) = 0 := rfl
    rw [h0]
    omega
  · simp [ChildJobAnalysis.failures, List.map_map]

end JJI

namespace JJI

/-! ## Claim C4 : one backend call per signature group? -/

/-- C4 counterexample: five failing tests, the first two sharing one error
signature (identical error message and stack trace).  The leaf walk makes
five backend calls — one per failing test — not the three the claim
predicts for three signature groups. -/
theorem analyze_leaf_no_grouping_counterexample :
    (extract_failures_from_test_report c4Report).length = 5 ∧
    (extract_failures_from_test_report c4Report).map (fun tf => tf.error_message)
      = ["AssertionError: shared", "AssertionError: shared", "E3", "E4", "E5"] ∧
    countAICalls (analyze_child_job c4Env "http://jenkins" "leaf-job" 1 0 3
      Option.none).2 = 5 ∧
    countAICalls (analyze_child_job c4Env "http://jenkins" "leaf-job" 1 0 3
      Option.none).2 ≠ 3 := by
  refine ⟨rfl, rfl, rfl, ?_⟩
  intro h
  rw [show countAICalls (analyze_child_job c4Env "http://jenkins" "leaf-job" 1 0 3
    Option.none).2 = 5 from rfl] at h
  exact absurd h (by decide)

/-- Witness for the amended C4 theorem at `c4Env`: the hypotheses hold
concretely and the walk makes exactly five per-test calls with five
per-test verdicts. -/
theorem analyze_leaf_per_failure_calls_witness :
    (0 : Nat) < 3 ∧
    (countAICalls (analyze_child_job c4Env "http://jenkins" "leaf-job" 1 0 3
        Option.none).2
      = (extract_failures_from_test_report c4Report).length ∧
    (analyze_child_job c4Env "http://jenkins" "leaf-job" 1 0 3 Option.none).1.failures
      = (extract_failures_from_test_report c4Report).map
          (fun tf => (analyze_single_test_failure c4Env tf
            (extract_relevant_console_lines "no pattern here") Option.none).1)) :=
  ⟨by decide,
   analyze_leaf_per_failure_calls c4Env "http://jenkins" "leaf-job" 1 0 3 Option.none
     {} "no pattern here" c4Report (by decide) rfl rfl rfl rfl rfl (by decide)⟩

end JJI

namespace JJI

/-- Every branch of the walker labels its node with the requested job and
build number. -/
theorem analyze_child_job_fuel_ids (env : WalkerEnv) (base : String) (fuel : Nat)
    (job_name : String) (build_number : Int) (depth max_depth : Nat)
    (repo_path : Option Unit) :
    (analyze_child_job_fuel env base fuel job_name build_number depth max_depth
      repo_path).1.job_name = job_name ∧
    (analyze_child_job_fuel env base fuel job_name build_number depth max_depth
      repo_path).1.build_number = build_number := by
  cases fuel with
  | zero =>
    rw [analyze_child_job_fuel]
    split
    · exact ⟨rfl, rfl⟩
    · exact ⟨rfl, rfl⟩
  | succ fuel =>
    rw [analyze_child_job_fuel]
    dsimp only
    repeat' split
    all_goals exact ⟨rfl, rfl⟩

/-- C6 (amended): when the fetches succeed and failed children are
detected, a child node is unconditionally a pure aggregator (no direct
verdicts, children-derived summary, no backend call of its own), and the
root node is a pure aggregator exactly when it additionally has no
structured test failures of its own (here: no test report); a root with
both failed children and its own test failures carries direct verdicts
(see the counterexample). -/
theorem aggregator_no_direct_verdicts (env : WalkerEnv) (base job_name : String)
    (build_number : Int) (depth max_depth : Nat) (repo_path : Option Unit)
    (bi : BuildInfo) (co : String)
    (hd : depth < max_depth)
    (hbi : env.get_build_info_safe job_name build_number = .ok bi)
    (hco : env.get_build_console job_name build_number = .ok co)
    (hch : detect_failed_children bi co ≠ []) :
    ((analyze_child_job env base job_name build_number depth max_depth
      repo_path).1.failures = [] ∧
    (analyze_child_job env base job_name build_number depth max_depth
      repo_path).1.summary
      = some (pipelineSummary ((analyze_child_job env base job_name build_number depth
          max_depth repo_path).1.failed_children)) ∧
    (analyze_child_job env base job_name build_number depth max_depth repo_path).1.failed_children
      = (detect_failed_children bi co).map
          (fun p => (analyze_child_job env base p.1 p.2 (depth + 1) max_depth repo_path).1) ∧
    (analyze_child_job env base job_name build_number depth max_depth repo_path).2
      = [CallEvent.buildInfo job_name build_number, CallEvent.console job_name build_number]
        ++ (detect_failed_children bi co).flatMap
            (fun p => (analyze_child_job env base p.1 p.2 (depth + 1) max_depth repo_path).2)) ∧
    (∀ job_id : String, bi.result ≠ some "SUCCESS" →
      env.get_test_report job_name build_number = Option.none →
      analyze_job env base job_name build_number job_id Option.none
        = Except.ok ({ job_id := job_id,
                       jenkins_url := jenkinsBuildUrl base job_name build_number,
                       status := "completed",
                       summary := pipelineSummary ((detect_failed_children bi co).map
                         (fun p => (analyze_child_job env base p.1 p.2 0 3 Option.none).1)),
                       failures := [],
                       child_job_analyses := (detect_failed_children bi co).map
                         (fun p => (analyze_child_job env base p.1 p.2 0 3 Option.none).1) },
          [CallEvent.buildInfo job_name build_number,
           CallEvent.console job_name build_number]
            ++ (detect_failed_children bi co).flatMap
                (fun p => (analyze_child_job env base p.1 p.2 0 3 Option.none).2)
            ++ [CallEvent.testReport job_name build_number])) := by
  obtain ⟨m, hm⟩ : ∃ m, max_depth - depth = m + 1 := ⟨max_depth - depth - 1, by omega⟩
  have hm2 : max_depth - (depth + 1) = m := by omega
  have hwrap : ∀ p : String × Int,
      analyze_child_job env base p.1 p.2 (depth + 1) max_depth repo_path
        = analyze_child_job_fuel env base m p.1 p.2 (depth + 1) max_depth repo_path := by
    intro p
    rw [analyze_child_job, hm2]
  constructor
  · rw [analyze_child_job, hm, analyze_child_job_fuel]
    rw [if_neg (by omega), hbi, hco]
    dsimp only
    rw [if_neg (by simpa [List.isEmpty_iff] using hch)]
    have hflat : ∀ l : List (String × Int),
        (l.map (fun p => analyze_child_job_fuel env base m p.1 p.2 (depth + 1)
          max_depth repo_path)).flatMap (·.2)
          = l.flatMap (fun p => (analyze_child_job env base p.1 p.2 (depth + 1)
              max_depth repo_path).2) := by
      intro l
      induction l with
      | nil => rfl
      | cons p ps ih => simp only [List.map_cons, List.flatMap_cons, ih, hwrap p]
    refine ⟨rfl, rfl, ?_, ?_⟩
    · rw [List.map_map]
      apply List.map_congr_left
      intro p _
      rw [hwrap p]
      rfl
    · dsimp only
      congr 1
      exact hflat _
  · intro job_id hres htr
    rw [analyze_job, hbi]
    dsimp only
    rw [if_neg hres, hco]
    dsimp only
    rw [htr]
    dsimp only
    rw [if_pos]
    · simp only [List.map_map, List.flatMap_map]
      rfl
    · simp [List.isEmpty_iff, hch]

/-- Witness for the amended C6 theorem at `c6AggEnv`: the hypotheses hold
at the concrete root build with one failed child and no test report. -/
theorem aggregator_no_direct_verdicts_witness :
    (0 < 3 ∧ c6AggEnv.get_build_info_safe "root" 1 = .ok c6BuildInfo ∧
     c6AggEnv.get_build_console "root" 1 = .ok "quiet console" ∧
     detect_failed_children c6BuildInfo "quiet console" ≠ []) ∧
    ((analyze_child_job c6AggEnv "http://j" "root" 1 0 3 Option.none).1.failures = [] ∧
     (analyze_child_job c6AggEnv "http://j" "root" 1 0 3 Option.none).1.summary
       = some (pipelineSummary ((analyze_child_job c6AggEnv "http://j" "root" 1 0 3
           Option.none).1.failed_children)) ∧
     (analyze_child_job c6AggEnv "http://j" "root" 1 0 3 Option.none).1.failed_children
       = (detect_failed_children c6BuildInfo "quiet console").map
           (fun p => (analyze_child_job c6AggEnv "http://j" p.1 p.2 (0 + 1) 3 Option.none).1) ∧
     (analyze_child_job c6AggEnv "http://j" "root" 1 0 3 Option.none).2
       = [CallEvent.buildInfo "root" 1, CallEvent.console "root" 1]
         ++ (detect_failed_children c6BuildInfo "quiet console").flatMap
             (fun p => (analyze_child_job c6AggEnv "http://j" p.1 p.2 (0 + 1) 3 Option.none).2)) ∧
    analyze_job c6AggEnv "http://j" "root" 1 "id" Option.none
      = Except.ok ({ job_id := "id",
                     jenkins_url := jenkinsBuildUrl "http://j" "root" 1,
                     status := "completed",
                     summary := pipelineSummary
                       ((detect_failed_children c6BuildInfo "quiet console").map
                         (fun p => (analyze_child_job c6AggEnv "http://j" p.1 p.2 0 3
                           Option.none).1)),
                     failures := [],
                     child_job_analyses :=
                       (detect_failed_children c6BuildInfo "quiet console").map
                         (fun p => (analyze_child_job c6AggEnv "http://j" p.1 p.2 0 3
                           Option.none).1) },
        [CallEvent.buildInfo "root" 1, CallEvent.console "root" 1]
          ++ (detect_failed_children c6BuildInfo "quiet console").flatMap
              (fun p => (analyze_child_job c6AggEnv "http://j" p.1 p.2 0 3 Option.none).2)
          ++ [CallEvent.testReport "root" 1]) :=
  ⟨⟨by decide, rfl, rfl, by decide⟩,
   (aggregator_no_direct_verdicts c6AggEnv "http://j" "root" 1 0 3 Option.none c6BuildInfo
     "quiet console" (by decide) rfl rfl (by decide)).1,
   (aggregator_no_direct_verdicts c6AggEnv "http://j" "root" 1 0 3 Option.none c6BuildInfo
     "quiet console" (by decide) rfl rfl (by decide)).2 "id" (by decide) rfl⟩

/-- C6 counterexample at the root: with one failed child detected AND one
structured test failure of the root build itself, `analyze_job` does not
apply the aggregator rule — the root node carries one direct verdict and
one dedicated backend call is made for the root's own failing test. -/
theorem aggregator_rule_root_counterexample :
    detect_failed_children c6BuildInfo "quiet console" = [("child-leaf", 4)] ∧
    (analyze_job c6Env "http://j" "root" 1 "id" Option.none).toOption.map
        (fun p => (p.1.failures.length, p.1.child_job_analyses.length, countAICalls p.2))
      = some (1, 1, 1) :=
  ⟨rfl, rfl⟩


/-! ## Claim C7 : metadata-first child detection and folder-path conversion -/

/-- One step of the left-to-right replacement when the window does not
match the folder separator. -/
theorem replaceFolderSep_step (c1 c2 c3 : Char) (rest : List Char)
    (h : ¬(c1 = ' ' ∧ c2 = '»' ∧ c3 = ' ')) :
    replaceFolderSep (c1 :: c2 :: c3 :: rest) = c1 :: replaceFolderSep (c2 :: c3 :: rest) := by
  rw [replaceFolderSep, if_neg h]

/-- Replacement is the identity on text without the folder glyph. -/
theorem replaceFolderSep_id (l : List Char) (h : '»' ∉ l) : replaceFolderSep l = l := by
  induction l with
  | nil => rfl
  | cons c l ih =>
    cases l with
    | nil => rfl
    | cons d l2 =>
      cases l2 with
      | nil => rfl
      | cons e r =>
        rw [replaceFolderSep_step c d e r (by
          rintro ⟨-, hd, -⟩
          exact h (by simp [hd]))]
        rw [ih (fun hx => h (List.mem_cons_of_mem c hx))]

/-- Replacement passes over a glyph-free prefix and rewrites the next
folder separator. -/
theorem replaceFolderSep_append_sep (l tail : List Char) (h : '»' ∉ l) :
    replaceFolderSep (l ++ ' ' :: '»' :: ' ' :: tail) = l ++ '/' :: replaceFolderSep tail := by
  induction l with
  | nil =>
    rw [List.nil_append, replaceFolderSep, if_pos ⟨rfl, rfl, rfl⟩]
    rfl
  | cons c l ih =>
    have hl : '»' ∉ l := fun hx => h (List.mem_cons_of_mem c hx)
    cases l with
    | nil =>
      simp only [List.cons_append, List.nil_append]
      rw [replaceFolderSep_step c ' ' '»' (' ' :: tail) (by
        rintro ⟨-, hd, -⟩
        exact absurd hd (by decide))]
      rw [replaceFolderSep, if_pos ⟨rfl, rfl, rfl⟩]
    | cons d l2 =>
      cases l2 with
      | nil =>
        simp only [List.cons_append, List.nil_append] at ih ⊢
        rw [replaceFolderSep_step c d ' ' ('»' :: ' ' :: tail) (by
          rintro ⟨-, hd, -⟩
          exact h (by simp [hd]))]
        rw [ih hl]
      | cons e r =>
        simp only [List.cons_append] at ih ⊢
        rw [replaceFolderSep_step c d e (r ++ ' ' :: '»' :: ' ' :: tail) (by
          rintro ⟨-, hd, -⟩
          exact h (by simp [hd]))]
        rw [ih hl]

/-- Replacing `" » "` by `"/"` turns the folder-joined form of a path into
its slash-joined form (the components themselves carrying no folder
glyph). -/
theorem replaceFolderSep_intercalate (comps : List (List Char))
    (h : ∀ comp ∈ comps, '»' ∉ comp) :
    replaceFolderSep (intercalateChars [' ', '»', ' '] comps)
      = intercalateChars ['/'] comps := by
  induction comps with
  | nil => rfl
  | cons l comps ih =>
    cases comps with
    | nil => exact replaceFolderSep_id l (h l (List.mem_cons_self l []))
    | cons l2 rest =>
      have h1 : '»' ∉ l := h l (List.mem_cons_self l _)
      simp only [intercalateChars, List.cons_append, List.nil_append, List.append_assoc]
      rw [replaceFolderSep_append_sep _ _ h1,
        ih (fun c hc => h c (List.mem_cons_of_mem l hc))]

/-- C7: failed child pairs come first from the structured metadata
(subBuilds and triggered builds whose result is FAILURE or UNSTABLE); the
console is pattern-matched for `Build <path> #<n> completed:
FAILURE|UNSTABLE` lines only when the metadata yields none; every
console-extracted pair originates from a matched line with its `" » "`
folder path converted to the `/`-joined job identifier. -/
theorem child_detection_order (bi : BuildInfo) (co : String) :
    (extract_failed_child_jobs bi ≠ [] →
      detect_failed_children bi co = extract_failed_child_jobs bi) ∧
    (extract_failed_child_jobs bi = [] →
      detect_failed_children bi co = extract_failed_child_jobs_from_console co) ∧
    (∀ p ∈ extract_failed_child_jobs bi,
      (∃ sb ∈ bi.subBuilds, (sb.result = "FAILURE" ∨ sb.result = "UNSTABLE") ∧
        p = (sb.jobName, sb.buildNumber)) ∨
      (∃ a ∈ bi.actions, ∃ tb ∈ a.triggeredBuilds,
        (tb.result = "FAILURE" ∨ tb.result = "UNSTABLE"))) ∧
    (∀ p ∈ extract_failed_child_jobs_from_console co, ∃ line ∈ splitlines co,
      ∃ q : String × Int, scanLine line.toList = some q ∧
        p = (String.mk (replaceFolderSep q.1.toList), q.2)) ∧
    (∀ comps : List (List Char), (∀ comp ∈ comps, '»' ∉ comp) →
      replaceFolderSep (intercalateChars [' ', '»', ' '] comps)
        = intercalateChars ['/'] comps) := by
  refine ⟨?_, ?_, ?_, ?_, fun comps h => replaceFolderSep_intercalate comps h⟩
  · intro h
    unfold detect_failed_children
    rw [if_neg (by simpa [List.isEmpty_iff] using h)]
  · intro h
    unfold detect_failed_children
    rw [if_pos (by simpa [List.isEmpty_iff] using h)]
  · intro p hp
    unfold extract_failed_child_jobs at hp
    simp only [List.mem_append, List.mem_filterMap, List.mem_flatMap] at hp
    rcases hp with ⟨sb, hsb, hf⟩ | ⟨a, ha, htb⟩
    · left
      refine ⟨sb, hsb, ?_⟩
      split at hf
      · split at hf
        · exact ⟨by assumption, (Option.some.injEq _ _ ▸ hf.symm)⟩
        · exact absurd hf (by simp)
      · exact absurd hf (by simp)
    · right
      split at htb
      · simp only [List.mem_filterMap] at htb
        obtain ⟨tb, htbm, hg⟩ := htb
        refine ⟨a, ha, tb, htbm, ?_⟩
        split at hg
        · assumption
        · exact absurd hg (by simp)
      · exact absurd htb (by simp)
  · intro p hp
    simp only [extract_failed_child_jobs_from_console, List.mem_filterMap,
      Option.map_eq_some'] at hp
    obtain ⟨line, hline, q, hq, hgq⟩ := hp
    exact ⟨line, hline, q, hq, hgq.symm⟩

/-- Witness for C7: a build with one failed subBuild keeps the metadata
result; an empty-metadata build falls back to the console, where
`Build a » b #3 completed: FAILURE` yields the pair `("a/b", 3)`. -/
theorem child_detection_order_witness :
    (extract_failed_child_jobs c6BuildInfo ≠ [] ∧
     detect_failed_children c6BuildInfo "quiet console" = extract_failed_child_jobs c6BuildInfo) ∧
    (extract_failed_child_jobs ({} : BuildInfo) = [] ∧
     detect_failed_children ({} : BuildInfo) "Build a » b #3 completed: FAILURE"
       = extract_failed_child_jobs_from_console "Build a » b #3 completed: FAILURE") ∧
    extract_failed_child_jobs_from_console "Build a » b #3 completed: FAILURE" = [("a/b", 3)] ∧
    ((∀ comp ∈ [['a'], ['b']], '»' ∉ comp) ∧
     replaceFolderSep (intercalateChars [' ', '»', ' '] [['a'], ['b']])
       = intercalateChars ['/'] [['a'], ['b']]) :=
  ⟨⟨by decide, (child_detection_order c6BuildInfo "quiet console").1 (by decide)⟩,
   ⟨rfl, (child_detection_order ({} : BuildInfo) "Build a » b #3 completed: FAILURE").2.1 rfl⟩,
   by decide,
   ⟨by decide, (child_detection_order ({} : BuildInfo) "x").2.2.2.2 [['a'], ['b']] (by decide)⟩⟩


/-! ## Claim C8 : the Jira enrichment pass -/

/-- Totality of the Python string order. -/
theorem pyLe_total (x y : List Char) : pyLe x y = true ∨ pyLe y x = true := by
  induction x generalizing y with
  | nil => left; rfl
  | cons a as ih =>
    cases y with
    | nil => right; rfl
    | cons b bs =>
      by_cases hab : a < b
      · left; rw [pyLe, if_pos hab]
      · by_cases hba : b < a
        · right; rw [pyLe, if_pos hba]
        · rcases ih bs with h | h
          · left; rw [pyLe, if_neg hab, if_neg hba]; exact h
          · right; rw [pyLe, if_neg hba, if_neg hab]; exact h

/-- Antisymmetry of the Python string order. -/
theorem pyLe_antisymm {x : List Char} : ∀ {y}, pyLe x y = true → pyLe y x = true → x = y := by
  induction x with
  | nil =>
    intro y h1 h2
    cases y with
    | nil => rfl
    | cons b bs =>
      rw [pyLe] at h2
      exact absurd h2 (by simp)
  | cons a as ih =>
    intro y h1 h2
    cases y with
    | nil =>
      rw [pyLe] at h1
      exact absurd h1 (by simp)
    | cons b bs =>
      rw [pyLe] at h1 h2
      by_cases hab : a < b
      · rw [if_neg (lt_asymm hab), if_pos hab] at h2
        exact absurd h2 (by simp)
      · by_cases hba : b < a
        · rw [if_neg hab, if_pos hba] at h1
          exact absurd h1 (by simp)
        · rw [if_neg hab, if_neg hba] at h1
          rw [if_neg hba, if_neg hab] at h2
          have hch : a = b := le_antisymm (le_of_not_lt hba) (le_of_not_lt hab)
          rw [hch, ih h1 h2]

/-- Transitivity of the Python string order. -/
theorem pyLe_trans {x : List Char} : ∀ {y z}, pyLe x y = true → pyLe y z = true →
    pyLe x z = true := by
  induction x with
  | nil => intro y z h1 h2; rfl
  | cons a as ih =>
    intro y z h1 h2
    cases y with
    | nil =>
      rw [pyLe] at h1
      exact absurd h1 (by simp)
    | cons b bs =>
      cases z with
      | nil =>
        rw [pyLe] at h2
        exact absurd h2 (by simp)
      | cons c cs =>
        rw [pyLe] at h1 h2 ⊢
        by_cases hab : a < b
        · by_cases hbc : b < c
          · rw [if_pos (lt_trans hab hbc)]
          · by_cases hcb : c < b
            · rw [if_neg hbc, if_pos hcb] at h2
              exact absurd h2 (by simp)
            · have hbceq : b = c := le_antisymm (le_of_not_lt hcb) (le_of_not_lt hbc)
              rw [if_pos (hbceq ▸ hab)]
        · by_cases hba : b < a
          · rw [if_neg hab, if_pos hba] at h1
            exact absurd h1 (by simp)
          · have habeq : a = b := le_antisymm (le_of_not_lt hba) (le_of_not_lt hab)
            rw [if_neg hab, if_neg hba] at h1
            by_cases hbc : b < c
            · rw [if_pos (habeq ▸ hbc)]
            · by_cases hcb : c < b
              · rw [if_neg hbc, if_pos hcb] at h2
                exact absurd h2 (by simp)
              · have hbceq : b = c := le_antisymm (le_of_not_lt hcb) (le_of_not_lt hbc)
                rw [if_neg hbc, if_neg hcb] at h2
                have hac : a = c := habeq.trans hbceq
                rw [if_neg (show ¬ a < c by rw [hac]; exact lt_irrefl c),
                  if_neg (show ¬ c < a by rw [hac]; exact lt_irrefl c)]
                exact ih h1 h2

/-- Insertion permutes. -/
theorem insertSorted_perm (s : String) (l : List String) :
    (insertSorted s l).Perm (s :: l) := by
  induction l with
  | nil => exact List.Perm.refl _
  | cons t ts ih =>
    rw [insertSorted]
    split
    · exact List.Perm.refl _
    · exact (List.Perm.cons t ih).trans (List.Perm.swap s t ts)

/-- Sorting permutes. -/
theorem sortedKey_perm (kws : List String) : (sortedKey kws).Perm kws := by
  induction kws with
  | nil => exact List.Perm.refl _
  | cons s ks ih =>
    have hs : sortedKey (s :: ks) = insertSorted s (sortedKey ks) := rfl
    rw [hs]
    exact (insertSorted_perm s (sortedKey ks)).trans (List.Perm.cons s ih)

/-- Insertion preserves sortedness. -/
theorem insertSorted_pairwise (s : String) (l : List String)
    (h : l.Pairwise (fun u v => pyLe u.toList v.toList = true)) :
    (insertSorted s l).Pairwise (fun u v => pyLe u.toList v.toList = true) := by
  induction l with
  | nil => exact List.pairwise_singleton _ s
  | cons t ts ih =>
    rw [insertSorted]
    split
    · refine List.Pairwise.cons ?_ h
      intro u hu
      rcases List.mem_cons.mp hu with rfl | hu2
      · assumption
      · exact pyLe_trans (by assumption) (List.rel_of_pairwise_cons h hu2)
    · refine List.Pairwise.cons ?_ (ih (List.Pairwise.of_cons h))
      intro u hu
      have hmem := (insertSorted_perm s ts).mem_iff.mp hu
      rcases List.mem_cons.mp hmem with rfl | hu2
      · rcases pyLe_total t.toList u.toList with h1 | h1
        · exact h1
        · exact absurd h1 (by assumption)
      · exact List.rel_of_pairwise_cons h hu2

/-- The grouping key is sorted. -/
theorem sortedKey_pairwise (kws : List String) :
    (sortedKey kws).Pairwise (fun u v => pyLe u.toList v.toList = true) := by
  induction kws with
  | nil => exact List.Pairwise.nil
  | cons s ks ih => exact insertSorted_pairwise s (sortedKey ks) ih

/-- Keyword lists that are permutations of one another have the same
grouping key (Python `tuple(sorted(...))`). -/
theorem sortedKey_perm_eq (k1 k2 : List String) (h : k1.Perm k2) :
    sortedKey k1 = sortedKey k2 := by
  haveI : IsAntisymm String (fun u v => pyLe u.toList v.toList = true) :=
    ⟨fun u v h1 h2 => by
      have h3 : u.toList = v.toList := pyLe_antisymm h1 h2
      cases u
      cases v
      simpa [String.toList] using congrArg String.mk h3⟩
  exact List.eq_of_perm_of_sorted
    ((sortedKey_perm k1).trans (h.trans (sortedKey_perm k2).symm))
    (sortedKey_pairwise k1) (sortedKey_pairwise k2)


/-- The group keys are pairwise distinct: one query per unique keyword
set. -/
theorem groupKeysAux_nodup (rs : List ProductBugReport) :
    ∀ acc : List (List String), acc.Nodup → (groupKeysAux rs acc).Nodup := by
  induction rs with
  | nil => intro acc h; exact h
  | cons r rs ih =>
    intro acc h
    rw [groupKeysAux]
    by_cases h0 : r.jira_search_keywords = []
    · rw [if_pos h0]
      exact ih acc h
    · rw [if_neg h0]
      try dsimp only
      by_cases hk : sortedKey r.jira_search_keywords ∈ acc
      · rw [if_pos hk]
        exact ih acc h
      · rw [if_neg hk]
        refine ih _ ?_
        simp [List.nodup_append, h, hk]

/-- With nothing to attach, a failure record is unchanged. -/
theorem applyAssignments_nil (f : FailureAnalysis) : applyAssignments [] f = f := by
  unfold applyAssignments
  cases hf : f.analysis.product_bug_report with
  | report r =>
    have hr : updateReport [] r = r := by
      unfold updateReport
      split
      · rfl
      · rfl
    dsimp only
    rw [hr, ← hf]
  | none => rfl
  | bool b => rfl

/-- A uniformly raising AI relevance filter reaches the outer handler at
the first group with candidates: nothing is attached. -/
theorem attachLoop_allfail (env : JiraEnv) (reports : List ProductBugReport)
    (hai : env.ai_configured = true)
    (hfail : ∀ t d cs, ∃ err, env.filter_ai t d cs = .error err) :
    ∀ l, attachLoop env reports l = [] := by
  intro l
  induction l with
  | nil => rfl
  | cons k ks ih =>
    rw [attachLoop]
    try dsimp only
    by_cases hc : (search_safe env k).isEmpty = true
    · rw [if_pos hc]
      exact ih
    · rw [if_neg hc, if_pos hai]
      obtain ⟨err, herr⟩ := hfail ((groupReports reports k).headD {}).title
        ((groupReports reports k).headD {}).description (search_safe env k)
      rw [herr]

/-- C8: the enrichment pass is a no-op when the tracker is not
configured; each unique sorted keyword set triggers exactly one tracker
query (so permuted keyword lists share one query); every report of a
group receives the same attached match list; a raising tracker search is
caught and yields no attachment for its group; and a raising relevance
filter is caught by the outer handler, leaving the failures unchanged -- 
the pass itself is a total function and never raises. -/
theorem jira_enrichment_spec (env : JiraEnv) (failures : List FailureAnalysis) :
    (env.jira_enabled = false →
      enrich_with_jira_matches env failures = (failures, [])) ∧
    (enrich_with_jira_matches env failures).2.Nodup ∧
    (∀ k1 k2 : List String, k1.Perm k2 → sortedKey k1 = sortedKey k2) ∧
    (∀ (asg : List (List String × List JiraMatch)) (r1 r2 : ProductBugReport) p,
      r1.jira_search_keywords ≠ [] →
      r1.jira_search_keywords.Perm r2.jira_search_keywords →
      asg.find? (fun q => q.1 == sortedKey r1.jira_search_keywords) = some p →
      (updateReport asg r1).jira_matches = p.2 ∧
      (updateReport asg r2).jira_matches = p.2) ∧
    (∀ (reports : List ProductBugReport) (l : List (List String))
      (k : List String) (m : List JiraMatch),
      (k, m) ∈ attachLoop env reports l → search_safe env k ≠ []) ∧
    (env.ai_configured = true →
      (∀ t d cs, ∃ err, env.filter_ai t d cs = .error err) →
      (enrich_with_jira_matches env failures).1 = failures) := by
  refine ⟨?_, ?_, fun k1 k2 h => sortedKey_perm_eq k1 k2 h, ?_, ?_, ?_⟩
  · intro h
    unfold enrich_with_jira_matches
    rw [if_pos (by rw [h]; rfl)]
  · unfold enrich_with_jira_matches
    split
    · simp
    · try dsimp only
      split
      · simp
      · try dsimp only
        split
        · simp
        · exact groupKeysAux_nodup _ _ List.nodup_nil
  · intro asg r1 r2 p h1 hperm hfind
    have h2 : r2.jira_search_keywords ≠ [] := by
      intro h0
      rw [h0] at hperm
      exact h1 hperm.eq_nil
    have hk : sortedKey r2.jira_search_keywords = sortedKey r1.jira_search_keywords :=
      (sortedKey_perm_eq _ _ hperm).symm
    constructor
    · unfold updateReport
      rw [if_neg h1, hfind]
    · unfold updateReport
      rw [if_neg h2, hk, hfind]
  · intro reports l
    induction l with
    | nil =>
      intro k m hm
      exact absurd hm (List.not_mem_nil _)
    | cons k' ks ih =>
      intro k m hm
      rw [attachLoop] at hm
      try dsimp only at hm
      by_cases hc : (search_safe env k').isEmpty = true
      · rw [if_pos hc] at hm
        exact ih k m hm
      · rw [if_neg hc] at hm
        split at hm
        · exact absurd hm (List.not_mem_nil _)
        · rcases List.mem_cons.mp hm with heq | hmem
          · have hkk : k = k' := by
              have h1 := congrArg Prod.fst heq
              simpa using h1
            rw [hkk]
            intro h0
            exact hc (by rw [h0]; rfl)
          · exact ih k m hmem
  · intro hai hfail
    unfold enrich_with_jira_matches
    split
    · rfl
    · try dsimp only
      split
      · rfl
      · try dsimp only
        split
        · rfl
        · try dsimp only
          rw [attachLoop_allfail env _ hai hfail]
          show failures.map (applyAssignments []) = failures
          have hmap : ∀ f ∈ failures, applyAssignments [] f = f :=
            fun f _ => applyAssignments_nil f
          simpa using List.map_congr_left hmap


/-- Witness for C8 at concrete environments: a disabled tracker is a
no-op; two reports with permuted keyword lists produce the single query
["auth", "login"]; the attached match list is shared; and a failing
filter leaves the failures unchanged. -/
theorem jira_enrichment_spec_witness :
    (c8OffEnv.jira_enabled = false ∧
     enrich_with_jira_matches c8OffEnv [c8Fail c8Report1] = ([c8Fail c8Report1], [])) ∧
    (enrich_with_jira_matches c8Env [c8Fail c8Report1, c8Fail c8Report2]).2.Nodup ∧
    (enrich_with_jira_matches c8Env [c8Fail c8Report1, c8Fail c8Report2]).2
      = [["auth", "login"]] ∧
    (["login", "auth"].Perm ["auth", "login"] ∧
     sortedKey ["login", "auth"] = sortedKey ["auth", "login"]) ∧
    (updateReport [(["auth", "login"], [candidateToMatch { key := "PROJ-1" }])]
        c8Report1).jira_matches = [candidateToMatch { key := "PROJ-1" }] ∧
    ((["a"], [candidateToMatch { key := "PROJ-1", summary := "s" }])
        ∈ attachLoop c8Env [] [["a"]] ∧
     search_safe c8Env ["a"] ≠ []) ∧
    (c8FailEnv.ai_configured = true ∧
     (enrich_with_jira_matches c8FailEnv [c8Fail c8Report1]).1 = [c8Fail c8Report1]) :=
  ⟨⟨rfl, (jira_enrichment_spec c8OffEnv [c8Fail c8Report1]).1 rfl⟩,
   (jira_enrichment_spec c8Env [c8Fail c8Report1, c8Fail c8Report2]).2.1,
   by decide,
   ⟨by decide, (jira_enrichment_spec c8Env []).2.2.1 ["login", "auth"] ["auth", "login"]
     (by decide)⟩,
   ((jira_enrichment_spec c8Env []).2.2.2.1
     [(["auth", "login"], [candidateToMatch { key := "PROJ-1" }])] c8Report1 c8Report2
     (["auth", "login"], [candidateToMatch { key := "PROJ-1" }])
     (by decide) (by decide) (by decide)).1,
   ⟨by decide, (jira_enrichment_spec c8Env []).2.2.2.2.1 [] [["a"]] ["a"]
     [candidateToMatch { key := "PROJ-1", summary := "s" }] (by decide)⟩,
   ⟨rfl, (jira_enrichment_spec c8FailEnv [c8Fail c8Report1]).2.2.2.2.2 rfl
     (fun t d cs => ⟨"boom", rfl⟩)⟩⟩


end JJI
